import Mathlib

/-!
# Test-suite discovery (`devtools/lit/lib/Discovery.cpp`)

A shallow embedding of the discovery functions of polarphp's `lit` port:
`choose_config_file_from_dir`, `dir_contains_test_suite`,
`do_search_testsuit`, `search_testsuit`, `get_test_suite` and
`search_local_config`.

Conventions of the embedding.

* A path is the pair of an "is absolute" flag and its list of segments, so
  `/proj/tests` is `⟨true, ["proj", "tests"]⟩`, the root `/` is `⟨true, []⟩`
  and the empty string is `⟨false, []⟩`.  `parent_path`, `filename` and
  `operator/=` are the lexical operations of `std::filesystem::path` on that
  representation; marker names are single segments.
* The file system (`exists`, `is_directory`, `canonical`, `current_path`) is a
  parameter.  `canonical` may fail (`std::filesystem::filesystem_error`).
* `std::map` is an association list with first-match lookup and overwriting
  insertion.
* C++ exceptions are the `Except.error` results; the mutable cache (a
  reference parameter in the source) is threaded explicitly and is returned
  also when an exception is raised, in the state the exception leaves it.
  The state also records, in order, the argument of every `loadFromPath`
  call and every debug note.
* The mutual recursion `search_testsuit` / `do_search_testsuit` is tied by a
  fuel counter initialised to the number of segments of the path plus one;
  `search_local_config` likewise, with the number of components plus one.
* `uncached_search` (the upward search without a cache) and
  `local_config_fold` (the closed form of the local config chain) are
  reference definitions, compared with the embedded code in the statements on
  cache coherence and on the local config chain.
-/

namespace Discovery

/-! ## Paths and the file system -/

/-- A `std::string` holding a path: absolute flag and segments, outermost first. -/
structure Path where
  absolute : Bool
  segs : List String
deriving DecidableEq, Repr

/-- The empty `std::string`. -/
def Path.empty : Path := ⟨false, []⟩

/-- The path `p` followed by the segments `ss`. -/
def Path.append (p : Path) (ss : List String) : Path := ⟨p.absolute, p.segs ++ ss⟩

/-- Rendering of a path as text (used in debug notes only). -/
def Path.str (p : Path) : String :=
  (if p.absolute then "/" else "") ++ "/".intercalate p.segs

/-- The lexical `fs::path::parent_path()`: drops the last segment; the root and the
empty path are their own parent. -/
def parent_path (p : Path) : Path := ⟨p.absolute, p.segs.dropLast⟩

/-- The lexical `fs::path::filename()`: the last segment, empty for the root. -/
def filename (p : Path) : String := p.segs.getLast?.getD ""

/-- The `p /= name` of `std::filesystem` for a one-segment relative `name`. -/
def path_join (dir : Path) (name : String) : Path := ⟨dir.absolute, dir.segs ++ [name]⟩

/-- The `fs::current_path() / item`: an absolute `item` replaces the left operand. -/
def path_concat (cwd item : Path) : Path :=
  if item.absolute then item else ⟨cwd.absolute, cwd.segs ++ item.segs⟩

/-- The file-system facilities the source calls (`<filesystem>`). -/
structure FileSystem where
  fs_exists : Path → Bool
  is_directory : Path → Bool
  canonical : Path → Option Path
  current_path : Path

/-! ## Configuration objects -/

/-- A `std::any`: empty, holding a `StringMap`, or holding some other type. -/
inductive AnyValue where
  | no_value
  | string_map (m : List (Path × Path))
  | other (tag : String)
deriving DecidableEq, Repr

/-- Modelled from the spec: `LitConfig` (`LitConfig.h` is not among the sources): the
ordered site, suite and local marker names, the parameter bag read by
`getParams()`, and the debug flag read by `isDebug()`. -/
structure LitConfig where
  siteConfigNames : List String
  configNames : List String
  localConfigNames : List String
  params : List (String × AnyValue)
  debug : Bool
deriving DecidableEq, Repr

/-- Modelled from the spec: `TestingConfig` (`Test.h` is not among the sources): a name,
the optional declared source and exec roots, and the bag of loaded settings. -/
structure TestingConfig where
  name : String
  testSourceRoot : Option Path
  testExecRoot : Option Path
  settings : List (String × String)
deriving DecidableEq, Repr

/-- Modelled from the spec: `TestSuite` (`Test.h` is not among the sources): name, source
root, exec root and governing configuration, as passed to its constructor. -/
structure TestSuite where
  name : String
  sourceRoot : Path
  execRoot : Path
  config : TestingConfig
deriving DecidableEq, Repr

/-- The `TestSuitSearchResult` tuple: optional suite and component list. -/
abbrev TestSuitSearchResult := Option TestSuite × List String

/-- The external collaborators of `TestingConfig`: default construction and the load
operation, which returns `none` when it fails. -/
structure Collaborators where
  fromDefaults : LitConfig → TestingConfig
  loadFromPath : TestingConfig → Path → LitConfig → Option TestingConfig

/-- The exceptions the embedded code can raise. -/
inductive Error where
  | filesystem_error (p : Path)
  | out_of_range (key : String)
  | bad_any_cast
  | load_failed (p : Path)
  | out_of_fuel
deriving DecidableEq, Repr

/-- The mutable world: the discovery cache, the log of `loadFromPath` arguments and the
log of debug notes. -/
structure DiscoveryState where
  cache : List (Path × TestSuitSearchResult)
  loads : List Path
  notes : List String
deriving DecidableEq, Repr

deriving instance DecidableEq for Except

/-- Result of a stateful call: value or exception, and the state left behind. -/
abbrev Outcome (α : Type) := Except Error α × DiscoveryState

/-! ## `std::map` operations -/

/-- The `std::map::find` / `at` on an association list. -/
def map_find {β : Type} (k : Path) : List (Path × β) → Option β
  | [] => none
  | (k1, v) :: rest => if k1 = k then some v else map_find k rest

/-- The `m[k] = v`: overwrites the entry of `k` or adds one. -/
def map_assign {β : Type} (k : Path) (v : β) : List (Path × β) → List (Path × β)
  | [] => [(k, v)]
  | (k1, v1) :: rest => if k1 = k then (k, v) :: rest else (k1, v1) :: map_assign k v rest

/-- The `getParams().at(key)`: `none` stands for `std::out_of_range`. -/
def params_at (key : String) : List (String × AnyValue) → Option AnyValue
  | [] => none
  | (k1, v) :: rest => if k1 = key then some v else params_at key rest

/-! ## Config file locator (lines 24-45) -/

/-- Lines 24-35. -/
def choose_config_file_from_dir (fs : FileSystem) (dir : Path) :
    List String → Option Path
  | [] => none
  | name :: rest =>
    let p := path_join dir name
    if fs.fs_exists p then some p else choose_config_file_from_dir fs dir rest

/-- Lines 37-45. -/
def dir_contains_test_suite (fs : FileSystem) (path : Path) (config : LitConfig) :
    Option Path :=
  match choose_config_file_from_dir fs path config.siteConfigNames with
  | some cfgPath => some cfgPath
  | none => choose_config_file_from_dir fs path config.configNames

/-! ## Suite search engine (lines 53-118) -/

/-- Lines 78-86 of `do_search_testsuit`: the path handed to `loadFromPath`.  The local
`cfgPath` starts as the empty string and is assigned only when the `std::any` read
from the parameter `config_map` holds a value. -/
def config_map_path (fs : FileSystem) (config : LitConfig) (cfgPathOpt : Path) :
    Except Error Path :=
  match params_at "config_map" config.params with
  | none => .error (.out_of_range "config_map")
  | some configMapAny =>
    match configMapAny with
    | .no_value => .ok Path.empty
    | .string_map configMap =>
      match fs.canonical cfgPathOpt with
      | none => .error (.filesystem_error cfgPathOpt)
      | some cfgPath =>
        match map_find cfgPath configMap with
        | some target => .ok target
        | none => .ok cfgPath
    | .other _ =>
      match fs.canonical cfgPathOpt with
      | none => .error (.filesystem_error cfgPathOpt)
      | some _ => .error .bad_any_cast

/-- Lines 53-106, with the recursive call to `search_testsuit` passed as `search`. -/
def do_search_testsuit (fs : FileSystem) (ext : Collaborators)
    (search : Path → LitConfig → DiscoveryState → Outcome TestSuitSearchResult)
    (path : Path) (config : LitConfig) (st : DiscoveryState) :
    Outcome TestSuitSearchResult :=
  match dir_contains_test_suite fs path config with
  | none =>
    let parent := parent_path path
    let base := filename path
    if parent = path then (.ok (none, []), st)
    else
      match search parent config st with
      | (.error e, st1) => (.error e, st1)
      | (.ok temp, st1) => (.ok (temp.1, temp.2 ++ [base]), st1)
  | some cfgPathOpt =>
    match config_map_path fs config cfgPathOpt with
    | .error e => (.error e, st)
    | .ok cfgPath =>
      let st1 : DiscoveryState :=
        if config.debug then
          { st with notes := st.notes ++ ["loading suite config " ++ cfgPath.str] }
        else st
      let testingCfg := ext.fromDefaults config
      let st2 : DiscoveryState := { st1 with loads := st1.loads ++ [cfgPath] }
      match ext.loadFromPath testingCfg cfgPath config with
      | none => (.error (.load_failed cfgPath), st2)
      | some loaded =>
        let sourceRoot := match loaded.testSourceRoot with
          | some r => r
          | none => path
        let execRoot := match loaded.testExecRoot with
          | some r => r
          | none => path
        (.ok (some ⟨loaded.name, sourceRoot, execRoot, loaded⟩, []), st2)

/-- Lines 108-118, with the call to `do_search_testsuit` passed as `do_search`.  The
right operand of `cache[realPath] = ...` is evaluated before `cache[realPath]`
(C++17), so an exception in it leaves no entry behind.  The final `cache.at(realPath)`
is the entry found, or the value just assigned. -/
def search_testsuit_body
    (do_search : Path → LitConfig → DiscoveryState → Outcome TestSuitSearchResult)
    (fs : FileSystem) (path : Path) (config : LitConfig) (st : DiscoveryState) :
    Outcome TestSuitSearchResult :=
  match fs.canonical path with
  | none => (.error (.filesystem_error path), st)
  | some realPath =>
    match map_find realPath st.cache with
    | some found => (.ok found, st)
    | none =>
      match do_search path config st with
      | (.error e, st1) => (.error e, st1)
      | (.ok r, st1) => (.ok r, { st1 with cache := map_assign realPath r st1.cache })

/-- The recursion of `search_testsuit` and `do_search_testsuit`, by fuel. -/
def search_testsuit_fuel (fs : FileSystem) (ext : Collaborators) :
    Nat → Path → LitConfig → DiscoveryState → Outcome TestSuitSearchResult
  | 0 => fun _ _ st => (.error .out_of_fuel, st)
  | n + 1 => search_testsuit_body (do_search_testsuit fs ext (search_testsuit_fuel fs ext n)) fs

/-- Lines 108-118: `search_testsuit`, with fuel for every segment of `path`. -/
def search_testsuit (fs : FileSystem) (ext : Collaborators) (path : Path)
    (config : LitConfig) (st : DiscoveryState) : Outcome TestSuitSearchResult :=
  search_testsuit_fuel fs ext (path.segs.length + 1) path config st

/-! ## Suite entry resolver (lines 122-145) -/

/-- Lines 130-138: the loop that skips files and virtual components.  The result `none` is
the return at line 134 (the parent of `currentDir` is `currentDir`); otherwise the
directory reached and the stripped segments, innermost first. -/
def skip_files (fs : FileSystem) :
    Nat → Path → List String → Except Error (Option (Path × List String))
  | 0, _, _ => .error .out_of_fuel
  | n + 1, currentDir, components =>
    if fs.is_directory currentDir then .ok (some (currentDir, components))
    else
      let parent := parent_path currentDir
      let base := filename currentDir
      if parent = currentDir then .ok none
      else skip_files fs n parent (components ++ [base])

/-- Lines 122-145. -/
def get_test_suite (fs : FileSystem) (ext : Collaborators) (item : Path)
    (config : LitConfig) (st : DiscoveryState) : Outcome TestSuitSearchResult :=
  match fs.canonical (path_concat fs.current_path item) with
  | none => (.error (.filesystem_error (path_concat fs.current_path item)), st)
  | some item1 =>
    match skip_files fs (item1.segs.length + 1) item1 [] with
    | .error e => (.error e, st)
    | .ok none => (.ok (none, []), st)
    | .ok (some (currentDir, components)) =>
      let components := components.reverse
      match search_testsuit fs ext currentDir config st with
      | (.error e, st1) => (.error e, st1)
      | (.ok temp, st1) =>
        (.ok (temp.1, components.foldl (fun acc item2 => acc ++ [item2]) temp.2), st1)

/-! ## Local config chain resolver (lines 149-174) -/

/-- Modelled from the spec: `TestSuite::getSourcePath` (`Test.h` is not among the
sources): the components resolved against the suite's source root. -/
def TestSuite.getSourcePath (testSuit : TestSuite) (components : List String) : Path :=
  testSuit.sourceRoot.append components

/-- Lines 149-174, by fuel. -/
def search_local_config_fuel (fs : FileSystem) (ext : Collaborators) (testSuit : TestSuite)
    (litConfig : LitConfig) :
    Nat → List String → DiscoveryState → Outcome TestingConfig
  | 0, _, st => (.error .out_of_fuel, st)
  | n + 1, pathInSuite, st =>
    let parentOutcome : Outcome TestingConfig :=
      if pathInSuite.isEmpty then (.ok testSuit.config, st)
      else search_local_config_fuel fs ext testSuit litConfig n pathInSuite.dropLast st
    match parentOutcome with
    | (.error e, st1) => (.error e, st1)
    | (.ok parent, st1) =>
      let sourcePath := testSuit.getSourcePath pathInSuite
      match choose_config_file_from_dir fs sourcePath litConfig.localConfigNames with
      | none => (.ok parent, st1)
      | some cfgPath =>
        let st2 : DiscoveryState :=
          if litConfig.debug then
            { st1 with notes := st1.notes ++ ["loading local config " ++ cfgPath.str] }
          else st1
        let st3 : DiscoveryState := { st2 with loads := st2.loads ++ [cfgPath] }
        match ext.loadFromPath parent cfgPath litConfig with
        | none => (.error (.load_failed cfgPath), st3)
        | some config => (.ok config, st3)

/-- Lines 149-174: `search_local_config`, with fuel for every component. -/
def search_local_config (fs : FileSystem) (ext : Collaborators) (testSuit : TestSuite)
    (litConfig : LitConfig) (pathInSuite : List String) (st : DiscoveryState) :
    Outcome TestingConfig :=
  search_local_config_fuel fs ext testSuit litConfig (pathInSuite.length + 1) pathInSuite st

/-! ## Predicates and harness used in the statements -/

/-- The suite that lines 93-105 build at directory `path` from the loaded configuration. -/
def suite_at (path : Path) (loaded : TestingConfig) : TestSuite :=
  ⟨loaded.name, loaded.testSourceRoot.getD path, loaded.testExecRoot.getD path, loaded⟩

/-- The state lines 87-92 leave: the note when debugging, and the load recorded. -/
def state_after_load (config : LitConfig) (cfgPath : Path) (st : DiscoveryState) :
    DiscoveryState :=
  { cache := st.cache,
    loads := st.loads ++ [cfgPath],
    notes := if config.debug then st.notes ++ ["loading suite config " ++ cfgPath.str]
      else st.notes }

/-- The chain condition of the upward walk from `a.append ss` to `a`: every directory
strictly below `a` on the way has no suite marker, has a canonical form, and that
canonical form has no entry in the cache. -/
def walk_clear (fs : FileSystem) (config : LitConfig) (a : Path) (ss : List String)
    (cache : List (Path × TestSuitSearchResult)) : Prop :=
  ∀ pre, pre ≠ [] → pre <+: ss →
    dir_contains_test_suite fs (a.append pre) config = none ∧
    ∃ k, fs.canonical (a.append pre) = some k ∧ map_find k cache = none

/-- A call performs at most one load, and a load it performs is the load of the marker
of an ancestor-or-self `anc` of `path` whose canonical form had no cache entry when the
call started. -/
def loads_once (fs : FileSystem) (config : LitConfig) (path : Path)
    (st st1 : DiscoveryState) : Prop :=
  st1.loads = st.loads ∨
    ∃ anc ss k m p, path = anc.append ss ∧ fs.canonical anc = some k ∧
      map_find k st.cache = none ∧ dir_contains_test_suite fs anc config = some m ∧
      config_map_path fs config m = .ok p ∧ st1.loads = st.loads ++ [p]

/-- A call of one of the two search entry points. -/
inductive Call where
  | search (path : Path)
  | get (item : Path)

/-- The state a call leaves, whether it returns or raises. -/
def call_state (fs : FileSystem) (ext : Collaborators) (config : LitConfig) (c : Call)
    (st : DiscoveryState) : DiscoveryState :=
  match c with
  | .search path => (search_testsuit fs ext path config st).2
  | .get item => (get_test_suite fs ext item config st).2

/-- The state a sequence of calls leaves, one cache threaded through them. -/
def run_calls (fs : FileSystem) (ext : Collaborators) (config : LitConfig)
    (calls : List Call) (st : DiscoveryState) : DiscoveryState :=
  calls.foldl (fun s c => call_state fs ext config c s) st

/-- The state lines 166-172 leave: the note when debugging, and the load recorded. -/
def state_after_local_load (litConfig : LitConfig) (cfgPath : Path) (st : DiscoveryState) :
    DiscoveryState :=
  { cache := st.cache,
    loads := st.loads ++ [cfgPath],
    notes := if litConfig.debug then st.notes ++ ["loading local config " ++ cfgPath.str]
      else st.notes }

/-- One step of the closed form of the local config chain, in the words of the
specification: the first existing local-override marker of the source directory of the
prefix `pre`, when there is one, is loaded into the running configuration; otherwise the
running configuration is left unchanged.  A failed load stops the chain. -/
def local_config_step (fs : FileSystem) (ext : Collaborators) (testSuit : TestSuite)
    (litConfig : LitConfig) (running : Outcome TestingConfig) (pre : List String) :
    Outcome TestingConfig :=
  match running with
  | (.error e, st) => (.error e, st)
  | (.ok config, st) =>
    match choose_config_file_from_dir fs (testSuit.getSourcePath pre)
        litConfig.localConfigNames with
    | none => (.ok config, st)
    | some marker =>
      match ext.loadFromPath config marker litConfig with
      | none => (.error (.load_failed marker), state_after_local_load litConfig marker st)
      | some loaded => (.ok loaded, state_after_local_load litConfig marker st)

/-- The closed form of the local config chain, in the words of the specification: the
left fold of `local_config_step` over the prefixes of `p`, from the empty prefix up to
`p` itself, starting from the suite's own configuration. -/
def local_config_fold (fs : FileSystem) (ext : Collaborators) (testSuit : TestSuite)
    (litConfig : LitConfig) (p : List String) (st : DiscoveryState) :
    Outcome TestingConfig :=
  p.inits.foldl (local_config_step fs ext testSuit litConfig) (.ok testSuit.config, st)

/-- The upward search that never consults a cache: the recursion of
`do_search_testsuit` on itself, by fuel. -/
def uncached_search_fuel (fs : FileSystem) (ext : Collaborators) :
    Nat → Path → LitConfig → DiscoveryState → Outcome TestSuitSearchResult
  | 0 => fun _ _ st => (.error .out_of_fuel, st)
  | n + 1 => do_search_testsuit fs ext (uncached_search_fuel fs ext n)

/-- The uncached upward search on `path`, with fuel for every segment. -/
def uncached_search (fs : FileSystem) (ext : Collaborators) (path : Path)
    (config : LitConfig) (st : DiscoveryState) : Outcome TestSuitSearchResult :=
  uncached_search_fuel fs ext (path.segs.length + 1) path config st

/-- The value or exception of the uncached upward search on `path`. -/
def uncached_result (fs : FileSystem) (ext : Collaborators) (path : Path)
    (config : LitConfig) : Except Error TestSuitSearchResult :=
  (uncached_search fs ext path config ⟨[], [], []⟩).1

/-- A cache is coherent when every entry is the result of the uncached upward search on
its key. -/
def cache_coherent (fs : FileSystem) (ext : Collaborators) (config : LitConfig)
    (cache : List (Path × TestSuitSearchResult)) : Prop :=
  ∀ k r, map_find k cache = some r → uncached_result fs ext k config = .ok r

/-- The global configuration `config` with its debug flag set to `b`: a configuration
that differs from `config` in the debug flag at most. -/
def with_debug (config : LitConfig) (b : Bool) : LitConfig :=
  { config with debug := b }

/-- Two outcomes, reached from the states `st` and `st2`, agree up to the debug notes:
same value or exception, same cache, and the same load log when the load logs were the
same at the start. -/
def agree_upto_notes {α : Type} (st st2 : DiscoveryState) (o o2 : Outcome α) : Prop :=
  o.1 = o2.1 ∧ o.2.cache = o2.2.cache ∧ (st.loads = st2.loads → o.2.loads = o2.2.loads)

/-! ## A concrete file system for the examples -/

/-- The example tree of the specification: `/proj` holds `suite.cfg`, `/proj/tests` holds
`local.cfg`, `/proj/tests/unit` holds the file `case.txt`; `/other` is a directory
outside every suite. -/
def demo_dirs : List Path :=
  [⟨true, []⟩, ⟨true, ["proj"]⟩, ⟨true, ["proj", "tests"]⟩,
   ⟨true, ["proj", "tests", "unit"]⟩, ⟨true, ["other"]⟩]

/-- The regular files of the example tree. -/
def demo_files : List Path :=
  [⟨true, ["proj", "suite.cfg"]⟩, ⟨true, ["proj", "site.cfg"]⟩,
   ⟨true, ["proj", "tests", "local.cfg"]⟩,
   ⟨true, ["proj", "tests", "unit", "case.txt"]⟩]

/-- The example file system, without symbolic links: every existing path is canonical. -/
def demo_fs : FileSystem where
  fs_exists := fun p => decide (p ∈ demo_dirs ++ demo_files)
  is_directory := fun p => decide (p ∈ demo_dirs)
  canonical := fun p => if p ∈ demo_dirs ++ demo_files then some p else none
  current_path := ⟨true, []⟩

/-- A loader for the examples: the loaded configuration is named after the file read and
records it in its settings; the file `broken.cfg` does not load. -/
def demo_ext : Collaborators where
  fromDefaults := fun _ => ⟨"", none, none, []⟩
  loadFromPath := fun c p _ =>
    if filename p = "broken.cfg" then none
    else some { c with name := p.str, settings := c.settings ++ [("loaded", p.str)] }

/-- The example global configuration, with an empty rewrite table supplied. -/
def demo_config : LitConfig where
  siteConfigNames := ["site.cfg"]
  configNames := ["suite.cfg"]
  localConfigNames := ["local.cfg"]
  params := [("config_map", .string_map [])]
  debug := false

/-- The example configuration with the parameter `config_map` holding an empty `std::any`:
no rewrite table is supplied. -/
def demo_config_no_table : LitConfig :=
  { demo_config with params := [("config_map", .no_value)] }

/-- The example configuration without any parameter named `config_map`. -/
def demo_config_no_param : LitConfig :=
  { demo_config with params := [] }

/-- The example configuration with a rewrite table sending `/proj/site.cfg` to the staged
copy `/staged/site.cfg`. -/
def demo_config_staged : LitConfig :=
  { demo_config with
    params := [("config_map",
      .string_map [(⟨true, ["proj", "site.cfg"]⟩, ⟨true, ["staged", "site.cfg"]⟩)])] }

/-- The example configuration with a rewrite table sending `/proj/site.cfg` to
`/staged/broken.cfg`, which the example loader fails to load. -/
def demo_config_broken : LitConfig :=
  { demo_config with
    params := [("config_map",
      .string_map [(⟨true, ["proj", "site.cfg"]⟩, ⟨true, ["staged", "broken.cfg"]⟩)])] }

/-- The configuration the example loader produces from the file `p`. -/
def demo_loaded (p : Path) : TestingConfig :=
  ⟨p.str, none, none, [("loaded", p.str)]⟩

/-- The state of a run that has already resolved `/other`: the cache holds the entries of
`/` and `/other`. -/
def demo_warm_state (config : LitConfig) : DiscoveryState :=
  (search_testsuit demo_fs demo_ext ⟨true, ["other"]⟩ config ⟨[], [], []⟩).2

/-- A tree whose suite root holds a local-override marker: `/suite` holds `suite.cfg` and
`local.cfg`, and `/suite/sub` is a directory below it. -/
def rooted_dirs : List Path :=
  [⟨true, []⟩, ⟨true, ["suite"]⟩, ⟨true, ["suite", "sub"]⟩]

/-- The regular files of the tree `rooted_dirs`. -/
def rooted_files : List Path :=
  [⟨true, ["suite", "suite.cfg"]⟩, ⟨true, ["suite", "local.cfg"]⟩]

/-- The file system of `rooted_dirs`, without symbolic links. -/
def rooted_fs : FileSystem where
  fs_exists := fun p => decide (p ∈ rooted_dirs ++ rooted_files)
  is_directory := fun p => decide (p ∈ rooted_dirs)
  canonical := fun p => if p ∈ rooted_dirs ++ rooted_files then some p else none
  current_path := ⟨true, []⟩

/-- The suite `get_test_suite` finds at `/suite` in `rooted_fs`. -/
def rooted_suite : TestSuite :=
  suite_at ⟨true, ["suite"]⟩ (demo_loaded ⟨true, ["suite", "suite.cfg"]⟩)

/-- The suite `get_test_suite` finds at `/proj` in `demo_fs`. -/
def demo_suite : TestSuite :=
  suite_at ⟨true, ["proj"]⟩ (demo_loaded ⟨true, ["proj", "site.cfg"]⟩)

/-- A loader whose configurations declare a test source root `/src` and no test exec
root. -/
def declaring_ext : Collaborators where
  fromDefaults := fun _ => ⟨"", none, none, []⟩
  loadFromPath := fun c p _ =>
    some { c with name := p.str, testSourceRoot := some ⟨true, ["src"]⟩ }

/-- The state of a fresh discovery run. -/
def DiscoveryState.init : DiscoveryState := ⟨[], [], []⟩

/-! ## Auxiliary facts: paths and maps -/

theorem parent_path_append_snoc (p : Path) (ss : List String) (s : String) :
    parent_path (p.append (ss ++ [s])) = p.append ss := by
  simp [parent_path, Path.append, ← List.append_assoc]

theorem filename_append_snoc (p : Path) (ss : List String) (s : String) :
    filename (p.append (ss ++ [s])) = s := by
  simp [filename, Path.append, ← List.append_assoc]

theorem parent_path_ne_of_snoc (p : Path) (ss : List String) (s : String) :
    parent_path (p.append (ss ++ [s])) ≠ p.append (ss ++ [s]) := by
  rw [parent_path_append_snoc]
  intro h
  have h2 := congrArg (fun q => q.segs.length) h
  simp [Path.append] at h2

theorem parent_path_eq_self_iff (p : Path) : parent_path p = p ↔ p.segs = [] := by
  cases p with
  | mk a segs =>
    constructor
    · intro h
      have h2 : segs.dropLast = segs := by simpa [parent_path] using h
      have h3 := congrArg List.length h2
      cases segs with
      | nil => rfl
      | cons x xs => simp at h3
    · intro h
      simp only at h
      subst h
      rfl

theorem path_append_nil (p : Path) : p.append [] = p := by
  cases p; simp [Path.append]

theorem path_append_append (p : Path) (xs ys : List String) :
    (p.append xs).append ys = p.append (xs ++ ys) := by
  simp [Path.append]

theorem map_find_assign_same {β : Type} (k : Path) (v : β) (c : List (Path × β)) :
    map_find k (map_assign k v c) = some v := by
  induction c with
  | nil => simp [map_assign, map_find]
  | cons hd tl ih =>
    obtain ⟨k1, v1⟩ := hd
    by_cases h : k1 = k
    · simp [map_assign, map_find, h]
    · simp [map_assign, map_find, h, ih]

theorem map_find_assign_other {β : Type} (k k2 : Path) (v : β) (c : List (Path × β))
    (h : k2 ≠ k) : map_find k2 (map_assign k v c) = map_find k2 c := by
  induction c with
  | nil => simp [map_assign, map_find, Ne.symm h]
  | cons hd tl ih =>
    obtain ⟨k1, v1⟩ := hd
    by_cases h1 : k1 = k
    · subst h1
      simp [map_assign, map_find, Ne.symm h]
    · by_cases h2 : k1 = k2
      · subst h2
        simp [map_assign, map_find, h1]
      · simp [map_assign, map_find, h1, h2, ih]

/-! ## Auxiliary facts: the config file locator -/

theorem choose_eq_none_iff (fs : FileSystem) (dir : Path) (names : List String) :
    choose_config_file_from_dir fs dir names = none ↔
      ∀ n ∈ names, fs.fs_exists (path_join dir n) = false := by
  induction names with
  | nil => simp [choose_config_file_from_dir]
  | cons x xs ih =>
    by_cases h : fs.fs_exists (path_join dir x) = true
    · simp [choose_config_file_from_dir, h]
    · simp only [Bool.not_eq_true] at h
      simp [choose_config_file_from_dir, h, ih]

theorem choose_eq_some_iff (fs : FileSystem) (dir : Path) (names : List String) (p : Path) :
    choose_config_file_from_dir fs dir names = some p ↔
      ∃ pre n post, names = pre ++ n :: post ∧
        (∀ m ∈ pre, fs.fs_exists (path_join dir m) = false) ∧
        fs.fs_exists (path_join dir n) = true ∧ p = path_join dir n := by
  induction names with
  | nil => simp [choose_config_file_from_dir]
  | cons x xs ih =>
    by_cases h : fs.fs_exists (path_join dir x) = true
    · simp only [choose_config_file_from_dir, h, if_true, Option.some.injEq]
      constructor
      · intro hp
        exact ⟨[], x, xs, rfl, by simp, h, hp.symm⟩
      · rintro ⟨pre, n, post, hsplit, hpre, hn, hp⟩
        cases pre with
        | nil =>
          simp only [List.nil_append, List.cons.injEq] at hsplit
          rw [hp, ← hsplit.1]
        | cons y ys =>
          simp only [List.cons_append, List.cons.injEq] at hsplit
          have := hpre y (by simp)
          rw [← hsplit.1, h] at this
          cases this
    · simp only [Bool.not_eq_true] at h
      simp only [choose_config_file_from_dir, h, Bool.false_eq_true, if_false, ih]
      constructor
      · rintro ⟨pre, n, post, hsplit, hpre, hn, hp⟩
        refine ⟨x :: pre, n, post, by simp [hsplit], ?_, hn, hp⟩
        intro m hm
        rcases List.mem_cons.mp hm with rfl | hm
        · exact h
        · exact hpre m hm
      · rintro ⟨pre, n, post, hsplit, hpre, hn, hp⟩
        cases pre with
        | nil =>
          simp only [List.nil_append, List.cons.injEq] at hsplit
          rw [← hsplit.1, h] at hn
          cases hn
        | cons y ys =>
          simp only [List.cons_append, List.cons.injEq] at hsplit
          exact ⟨ys, n, post, hsplit.2, fun m hm => hpre m (by simp [hm]), hn, hp⟩

theorem choose_first_of_exists (fs : FileSystem) (dir : Path) (names : List String)
    (h : ∃ n ∈ names, fs.fs_exists (path_join dir n) = true) :
    ∃ pre n post, names = pre ++ n :: post ∧
      (∀ m ∈ pre, fs.fs_exists (path_join dir m) = false) ∧
      fs.fs_exists (path_join dir n) = true ∧
      choose_config_file_from_dir fs dir names = some (path_join dir n) := by
  cases hc : choose_config_file_from_dir fs dir names with
  | none =>
    obtain ⟨n, hn, hex⟩ := h
    have := (choose_eq_none_iff fs dir names).mp hc n hn
    rw [hex] at this
    cases this
  | some p =>
    obtain ⟨pre, n, post, h1, h2, h3, h4⟩ := (choose_eq_some_iff fs dir names p).mp hc
    exact ⟨pre, n, post, h1, h2, h3, by rw [h4]⟩

theorem choose_congr_fs (fs fs2 : FileSystem) (dir : Path) (names : List String)
    (h : ∀ n ∈ names, fs2.fs_exists (path_join dir n) = fs.fs_exists (path_join dir n)) :
    choose_config_file_from_dir fs2 dir names = choose_config_file_from_dir fs dir names := by
  induction names with
  | nil => rfl
  | cons x xs ih =>
    simp only [choose_config_file_from_dir]
    rw [h x (by simp), ih (fun n hn => h n (by simp [hn]))]

theorem config_map_path_congr_fs (fs fs2 : FileSystem) (config : LitConfig) (m : Path)
    (h : fs2.canonical = fs.canonical) :
    config_map_path fs2 config m = config_map_path fs config m := by
  simp only [config_map_path, h]

/-! ## Auxiliary facts: the search engine -/

theorem do_search_testsuit_congr (fs : FileSystem) (ext : Collaborators)
    (search1 search2 : Path → LitConfig → DiscoveryState → Outcome TestSuitSearchResult)
    (path : Path) (config : LitConfig) (st : DiscoveryState)
    (h : parent_path path ≠ path →
      search1 (parent_path path) config st = search2 (parent_path path) config st) :
    do_search_testsuit fs ext search1 path config st =
      do_search_testsuit fs ext search2 path config st := by
  unfold do_search_testsuit
  cases dir_contains_test_suite fs path config with
  | some m => rfl
  | none =>
    by_cases hp : parent_path path = path
    · simp [hp]
    · simp only [hp, if_false, h hp]

theorem search_testsuit_unfold (fs : FileSystem) (ext : Collaborators) (path : Path)
    (config : LitConfig) (st : DiscoveryState) :
    search_testsuit fs ext path config st =
      search_testsuit_body (do_search_testsuit fs ext (search_testsuit fs ext)) fs
        path config st := by
  have hcongr : do_search_testsuit fs ext (search_testsuit_fuel fs ext path.segs.length)
      path config st = do_search_testsuit fs ext (search_testsuit fs ext) path config st := by
    apply do_search_testsuit_congr
    intro hp
    have hne : path.segs ≠ [] := fun h => hp ((parent_path_eq_self_iff path).mpr h)
    have hlen : (parent_path path).segs.length + 1 = path.segs.length := by
      simp only [parent_path, List.length_dropLast]
      have : 0 < path.segs.length := List.length_pos.mpr hne
      omega
    simp only [search_testsuit, hlen]
  simp only [search_testsuit, search_testsuit_fuel, search_testsuit_body, hcongr]

/-- One level of the upward walk: a directory without marker and without cache entry
searches its parent and appends its own base name. -/
theorem search_testsuit_step (fs : FileSystem) (ext : Collaborators) (config : LitConfig)
    (a : Path) (ss : List String) (s : String) (k : Path) (st : DiscoveryState)
    (hcan : fs.canonical (a.append (ss ++ [s])) = some k)
    (hmiss : map_find k st.cache = none)
    (hnone : dir_contains_test_suite fs (a.append (ss ++ [s])) config = none) :
    search_testsuit fs ext (a.append (ss ++ [s])) config st =
      match search_testsuit fs ext (a.append ss) config st with
      | (.error e, st1) => (.error e, st1)
      | (.ok r, st1) =>
        (.ok (r.1, r.2 ++ [s]), { st1 with cache := map_assign k (r.1, r.2 ++ [s]) st1.cache }) := by
  rw [search_testsuit_unfold]
  have hne : ¬ (a.append ss = a.append (ss ++ [s])) := by
    have := parent_path_ne_of_snoc a ss s
    rwa [parent_path_append_snoc] at this
  simp only [search_testsuit_body, hcan, hmiss, do_search_testsuit, hnone,
    parent_path_append_snoc, filename_append_snoc, hne, if_false]
  rcases search_testsuit fs ext (a.append ss) config st with ⟨r | r, st1⟩ <;> rfl

theorem walk_clear_init (fs : FileSystem) (config : LitConfig) (a : Path)
    (ss : List String) (s : String) (cache : List (Path × TestSuitSearchResult))
    (h : walk_clear fs config a (ss ++ [s]) cache) : walk_clear fs config a ss cache :=
  fun pre hne hpre => h pre hne (hpre.trans (List.prefix_append ss [s]))

/-- The upward walk propagates an exception raised at the top unchanged, state
included. -/
theorem search_testsuit_walk_error (fs : FileSystem) (ext : Collaborators)
    (config : LitConfig) (a : Path) (ss : List String) (st st1 : DiscoveryState)
    (e : Error) (hclear : walk_clear fs config a ss st.cache)
    (ha : search_testsuit fs ext a config st = (.error e, st1)) :
    search_testsuit fs ext (a.append ss) config st = (.error e, st1) := by
  induction ss using List.reverseRecOn with
  | nil => rw [path_append_nil]; exact ha
  | append_singleton ss s ih =>
    obtain ⟨hnone, k, hcan, hmiss⟩ := hclear (ss ++ [s]) (by simp) (List.prefix_refl _)
    rw [search_testsuit_step fs ext config a ss s k st hcan hmiss hnone,
      ih (walk_clear_init fs config a ss s st.cache hclear)]

/-- The upward walk returns the suite found at the top and the segments walked,
outermost first, appended to the components found at the top; it performs no load and
emits no note of its own. -/
theorem search_testsuit_walk_ok (fs : FileSystem) (ext : Collaborators)
    (config : LitConfig) (a : Path) (ss : List String) (st st1 : DiscoveryState)
    (r : TestSuitSearchResult) (hclear : walk_clear fs config a ss st.cache)
    (ha : search_testsuit fs ext a config st = (.ok r, st1)) :
    ∃ st2, search_testsuit fs ext (a.append ss) config st = (.ok (r.1, r.2 ++ ss), st2) ∧
      st2.loads = st1.loads ∧ st2.notes = st1.notes := by
  induction ss using List.reverseRecOn with
  | nil =>
    rw [path_append_nil]
    exact ⟨st1, by simp [ha], rfl, rfl⟩
  | append_singleton ss s ih =>
    obtain ⟨hnone, k, hcan, hmiss⟩ := hclear (ss ++ [s]) (by simp) (List.prefix_refl _)
    obtain ⟨st2, h2, hl, hn⟩ := ih (walk_clear_init fs config a ss s st.cache hclear)
    rw [search_testsuit_step fs ext config a ss s k st hcan hmiss hnone, h2]
    refine ⟨{ st2 with cache := map_assign k (r.1, r.2 ++ (ss ++ [s])) st2.cache }, ?_, hl, hn⟩
    simp only [List.append_assoc]

theorem do_search_testsuit_marker_ok (fs : FileSystem) (ext : Collaborators)
    (search : Path → LitConfig → DiscoveryState → Outcome TestSuitSearchResult)
    (path : Path) (config : LitConfig) (st : DiscoveryState) (m p : Path)
    (tc : TestingConfig)
    (hm : dir_contains_test_suite fs path config = some m)
    (hcfg : config_map_path fs config m = .ok p)
    (hload : ext.loadFromPath (ext.fromDefaults config) p config = some tc) :
    do_search_testsuit fs ext search path config st =
      (.ok (some (suite_at path tc), []), state_after_load config p st) := by
  simp only [do_search_testsuit, hm, hcfg, hload, suite_at, state_after_load]
  cases tc.testSourceRoot <;> cases tc.testExecRoot <;> cases config.debug <;> simp

theorem do_search_testsuit_marker_fail (fs : FileSystem) (ext : Collaborators)
    (search : Path → LitConfig → DiscoveryState → Outcome TestSuitSearchResult)
    (path : Path) (config : LitConfig) (st : DiscoveryState) (m p : Path)
    (hm : dir_contains_test_suite fs path config = some m)
    (hcfg : config_map_path fs config m = .ok p)
    (hload : ext.loadFromPath (ext.fromDefaults config) p config = none) :
    do_search_testsuit fs ext search path config st =
      (.error (.load_failed p), state_after_load config p st) := by
  simp only [do_search_testsuit, hm, hcfg, hload, state_after_load]
  cases config.debug <;> simp

theorem search_testsuit_marker_fail (fs : FileSystem) (ext : Collaborators)
    (path : Path) (config : LitConfig) (st : DiscoveryState) (k m p : Path)
    (hcan : fs.canonical path = some k) (hmiss : map_find k st.cache = none)
    (hm : dir_contains_test_suite fs path config = some m)
    (hcfg : config_map_path fs config m = .ok p)
    (hload : ext.loadFromPath (ext.fromDefaults config) p config = none) :
    search_testsuit fs ext path config st =
      (.error (.load_failed p), state_after_load config p st) := by
  rw [search_testsuit_unfold]
  simp only [search_testsuit_body, hcan, hmiss,
    do_search_testsuit_marker_fail fs ext _ path config st m p hm hcfg hload]

theorem search_testsuit_cached (fs : FileSystem) (ext : Collaborators)
    (path : Path) (config : LitConfig) (st : DiscoveryState) (k : Path)
    (r : TestSuitSearchResult)
    (hcan : fs.canonical path = some k) (hhit : map_find k st.cache = some r) :
    search_testsuit fs ext path config st = (.ok r, st) := by
  rw [search_testsuit_unfold]
  simp only [search_testsuit_body, hcan, hhit]

theorem do_search_testsuit_error_cache (fs : FileSystem) (ext : Collaborators)
    (search : Path → LitConfig → DiscoveryState → Outcome TestSuitSearchResult)
    (path : Path) (config : LitConfig) (st st1 : DiscoveryState) (e : Error)
    (hsearch : ∀ e2 st2, search (parent_path path) config st = (.error e2, st2) →
      st2.cache = st.cache)
    (h : do_search_testsuit fs ext search path config st = (.error e, st1)) :
    st1.cache = st.cache := by
  unfold do_search_testsuit at h
  cases hd : dir_contains_test_suite fs path config with
  | none =>
    simp only [hd] at h
    by_cases hp : parent_path path = path
    · simp [hp] at h
    · simp only [hp, if_false] at h
      rcases hs : search (parent_path path) config st with ⟨e2 | r2, st2⟩
      · simp only [hs, Prod.mk.injEq] at h
        rw [← h.2]
        exact hsearch e2 st2 hs
      · simp [hs] at h
  | some m =>
    simp only [hd] at h
    cases hc : config_map_path fs config m with
    | error e2 =>
      simp only [hc, Prod.mk.injEq] at h
      rw [← h.2]
    | ok p =>
      simp only [hc] at h
      cases hl : ext.loadFromPath (ext.fromDefaults config) p config with
      | none =>
        simp only [hl, Prod.mk.injEq] at h
        rw [← h.2]
        cases config.debug <;> rfl
      | some tc => simp [hl] at h

theorem search_testsuit_fuel_error_cache (fs : FileSystem) (ext : Collaborators)
    (config : LitConfig) (n : Nat) :
    ∀ (path : Path) (st st1 : DiscoveryState) (e : Error),
      search_testsuit_fuel fs ext n path config st = (.error e, st1) →
      st1.cache = st.cache := by
  induction n with
  | zero =>
    intro path st st1 e h
    simp only [search_testsuit_fuel, Prod.mk.injEq] at h
    rw [← h.2]
  | succ n ih =>
    intro path st st1 e h
    simp only [search_testsuit_fuel, search_testsuit_body] at h
    cases hc : fs.canonical path with
    | none =>
      simp only [hc, Prod.mk.injEq] at h
      rw [← h.2]
    | some k =>
      simp only [hc] at h
      cases hf : map_find k st.cache with
      | some found => simp [hf] at h
      | none =>
        simp only [hf] at h
        rcases hs : do_search_testsuit fs ext (search_testsuit_fuel fs ext n) path config st
          with ⟨e2 | r2, st2⟩
        · simp only [hs, Prod.mk.injEq] at h
          rw [← h.2]
          exact do_search_testsuit_error_cache fs ext _ path config st st2 e2
            (fun e3 st3 h3 => ih _ _ _ _ h3) hs
        · simp [hs] at h

theorem search_testsuit_error_cache (fs : FileSystem) (ext : Collaborators)
    (config : LitConfig) (path : Path) (st st1 : DiscoveryState) (e : Error)
    (h : search_testsuit fs ext path config st = (.error e, st1)) :
    st1.cache = st.cache :=
  search_testsuit_fuel_error_cache fs ext config _ path st st1 e h

theorem search_testsuit_fuel_keeps (fs : FileSystem) (ext : Collaborators)
    (config : LitConfig) (n : Nat) :
    ∀ (path : Path) (st : DiscoveryState) (k : Path) (r : TestSuitSearchResult),
      map_find k st.cache = some r →
      map_find k (search_testsuit_fuel fs ext n path config st).2.cache = some r := by
  induction n with
  | zero =>
    intro path st k r h
    simpa [search_testsuit_fuel] using h
  | succ n ih =>
    intro path st k r h
    simp only [search_testsuit_fuel, search_testsuit_body]
    cases hc : fs.canonical path with
    | none => simpa using h
    | some k2 =>
      simp only
      cases hf : map_find k2 st.cache with
      | some found => simpa using h
      | none =>
        simp only
        have hne : k ≠ k2 := by
          intro heq
          rw [heq, hf] at h
          cases h
        have hdo : map_find k (do_search_testsuit fs ext (search_testsuit_fuel fs ext n)
            path config st).2.cache = some r := by
          unfold do_search_testsuit
          cases dir_contains_test_suite fs path config with
          | none =>
            simp only
            by_cases hp : parent_path path = path
            · simpa [hp] using h
            · simp only [hp, if_false]
              have := ih (parent_path path) st k r h
              rcases hs : search_testsuit_fuel fs ext n (parent_path path) config st
                with ⟨e2 | r2, st2⟩ <;> rw [hs] at this <;> simpa using this
          | some m =>
            simp only
            cases config_map_path fs config m with
            | error e2 => simpa using h
            | ok p =>
              simp only
              cases ext.loadFromPath (ext.fromDefaults config) p config <;>
                cases config.debug <;> simpa using h
        rcases hs : do_search_testsuit fs ext (search_testsuit_fuel fs ext n) path config st
          with ⟨e2 | r2, st2⟩
        · rw [hs] at hdo
          simpa using hdo
        · rw [hs] at hdo
          simp only
          rw [map_find_assign_other k2 k r2 st2.cache hne]
          simpa using hdo

theorem search_testsuit_keeps (fs : FileSystem) (ext : Collaborators)
    (config : LitConfig) (path : Path) (st : DiscoveryState) (k : Path)
    (r : TestSuitSearchResult) (h : map_find k st.cache = some r) :
    map_find k (search_testsuit fs ext path config st).2.cache = some r :=
  search_testsuit_fuel_keeps fs ext config _ path st k r h

theorem search_testsuit_ok_cached (fs : FileSystem) (ext : Collaborators)
    (config : LitConfig) (path : Path) (st st1 : DiscoveryState)
    (r : TestSuitSearchResult)
    (h : search_testsuit fs ext path config st = (.ok r, st1)) :
    ∃ k, fs.canonical path = some k ∧ map_find k st1.cache = some r := by
  rw [search_testsuit_unfold] at h
  simp only [search_testsuit_body] at h
  cases hc : fs.canonical path with
  | none => simp [hc] at h
  | some k =>
    refine ⟨k, rfl, ?_⟩
    simp only [hc] at h
    cases hf : map_find k st.cache with
    | some found =>
      simp only [hf, Prod.mk.injEq, Except.ok.injEq] at h
      rw [← h.2, hf, h.1]
    | none =>
      simp only [hf] at h
      rcases hs : do_search_testsuit fs ext (search_testsuit fs ext) path config st
        with ⟨e2 | r2, st2⟩
      · simp [hs] at h
      · simp only [hs, Prod.mk.injEq, Except.ok.injEq] at h
        rw [← h.2, ← h.1]
        exact map_find_assign_same k r2 st2.cache

theorem path_eq_parent_append (path : Path) (h : parent_path path ≠ path) :
    path = (parent_path path).append [filename path] := by
  obtain ⟨a, segs⟩ := path
  induction segs using List.reverseRecOn with
  | nil => exact absurd rfl h
  | append_singleton xs x _ => simp [parent_path, filename, Path.append]

theorem search_testsuit_fuel_loads_once (fs : FileSystem) (ext : Collaborators)
    (config : LitConfig) (n : Nat) :
    ∀ (path : Path) (st : DiscoveryState),
      loads_once fs config path st (search_testsuit_fuel fs ext n path config st).2 := by
  induction n with
  | zero =>
    intro path st
    exact Or.inl rfl
  | succ n ih =>
    intro path st
    simp only [search_testsuit_fuel, search_testsuit_body]
    cases hc : fs.canonical path with
    | none => exact Or.inl rfl
    | some k =>
      simp only
      cases hf : map_find k st.cache with
      | some found => exact Or.inl rfl
      | none =>
        simp only
        have hdo : loads_once fs config path st
            (do_search_testsuit fs ext (search_testsuit_fuel fs ext n) path config st).2 := by
          unfold do_search_testsuit
          cases hd : dir_contains_test_suite fs path config with
          | none =>
            simp only
            by_cases hp : parent_path path = path
            · simp only [hp, if_true]
              exact Or.inl rfl
            · simp only [hp, if_false]
              have hrec := ih (parent_path path) st
              have hst : (match search_testsuit_fuel fs ext n (parent_path path) config st with
                  | (Except.error e, st1) => ((Except.error e, st1) : Outcome TestSuitSearchResult)
                  | (Except.ok temp, st1) =>
                    (Except.ok (temp.1, temp.2 ++ [filename path]), st1)).2
                  = (search_testsuit_fuel fs ext n (parent_path path) config st).2 := by
                rcases search_testsuit_fuel fs ext n (parent_path path) config st
                  with ⟨e2 | r2, st2⟩ <;> rfl
              rw [hst]
              rcases hrec with hsame | ⟨anc, ss, k2, m, p, h1, h2, h3, h4, h5, h6⟩
              · exact Or.inl hsame
              · refine Or.inr ⟨anc, ss ++ [filename path], k2, m, p, ?_, h2, h3, h4, h5, h6⟩
                rw [← path_append_append, ← h1]
                exact path_eq_parent_append path hp
          | some m =>
            simp only
            cases hcm : config_map_path fs config m with
            | error e2 => exact Or.inl rfl
            | ok p =>
              refine Or.inr ⟨path, [], k, m, p, (path_append_nil path).symm, hc, hf, hd, hcm, ?_⟩
              simp only
              cases ext.loadFromPath (ext.fromDefaults config) p config <;>
                cases config.debug <;> rfl
        rcases hs : do_search_testsuit fs ext (search_testsuit_fuel fs ext n) path config st
          with ⟨e2 | r2, st2⟩ <;> rw [hs] at hdo <;> exact hdo

theorem get_test_suite_state (fs : FileSystem) (ext : Collaborators)
    (config : LitConfig) (item : Path) (st : DiscoveryState) :
    (get_test_suite fs ext item config st).2 = st ∨
      ∃ cur, (get_test_suite fs ext item config st).2 =
        (search_testsuit fs ext cur config st).2 := by
  unfold get_test_suite
  cases fs.canonical (path_concat fs.current_path item) with
  | none => exact Or.inl rfl
  | some item1 =>
    simp only
    rcases skip_files fs (item1.segs.length + 1) item1 [] with e | _ | ⟨cur, comps⟩
    · exact Or.inl rfl
    · exact Or.inl rfl
    · refine Or.inr ⟨cur, ?_⟩
      simp only
      rcases search_testsuit fs ext cur config st with ⟨e2 | r2, st2⟩ <;> rfl

theorem call_state_keeps (fs : FileSystem) (ext : Collaborators) (config : LitConfig)
    (c : Call) (st : DiscoveryState) (k : Path) (r : TestSuitSearchResult)
    (h : map_find k st.cache = some r) :
    map_find k (call_state fs ext config c st).cache = some r := by
  cases c with
  | search path => exact search_testsuit_keeps fs ext config path st k r h
  | get item =>
    simp only [call_state]
    rcases get_test_suite_state fs ext config item st with h1 | ⟨cur, h1⟩
    · rw [h1]; exact h
    · rw [h1]; exact search_testsuit_keeps fs ext config cur st k r h

theorem run_calls_keeps (fs : FileSystem) (ext : Collaborators) (config : LitConfig)
    (calls : List Call) (st : DiscoveryState) (k : Path) (r : TestSuitSearchResult)
    (h : map_find k st.cache = some r) :
    map_find k (run_calls fs ext config calls st).cache = some r := by
  induction calls generalizing st with
  | nil => exact h
  | cons c cs ih =>
    simp only [run_calls, List.foldl_cons]
    exact ih _ (call_state_keeps fs ext config c st k r h)

/-! ## Auxiliary facts: the entry resolver -/

theorem foldl_push_back (xs init : List String) :
    xs.foldl (fun acc item2 => acc ++ [item2]) init = init ++ xs := by
  induction xs generalizing init with
  | nil => simp
  | cons x xs ih => simp [ih]

theorem get_test_suite_of_directory (fs : FileSystem) (ext : Collaborators)
    (item d : Path) (config : LitConfig) (st : DiscoveryState)
    (hitem : fs.canonical (path_concat fs.current_path item) = some d)
    (hdir : fs.is_directory d = true) :
    get_test_suite fs ext item config st = search_testsuit fs ext d config st := by
  simp only [get_test_suite, hitem, skip_files, hdir, if_true, List.reverse_nil,
    List.foldl_nil]
  rcases search_testsuit fs ext d config st with ⟨r | r, st1⟩ <;> rfl

theorem skip_files_reaches (fs : FileSystem) (b : Path) (ts : List String)
    (hb : fs.is_directory b = true)
    (hfiles : ∀ pre, pre ≠ [] → pre <+: ts → fs.is_directory (b.append pre) = false)
    (n : Nat) (hn : ts.length < n) (components : List String) :
    skip_files fs n (b.append ts) components = .ok (some (b, components ++ ts.reverse)) := by
  induction ts using List.reverseRecOn generalizing n components with
  | nil =>
    cases n with
    | zero => simp at hn
    | succ n => simp [skip_files, path_append_nil, hb]
  | append_singleton ts s ih =>
    cases n with
    | zero => simp at hn
    | succ n =>
      have hf := hfiles (ts ++ [s]) (by simp) (List.prefix_refl _)
      have hne : ¬ (b.append ts = b.append (ts ++ [s])) := by
        have := parent_path_ne_of_snoc b ts s
        rwa [parent_path_append_snoc] at this
      simp only [skip_files, hf, Bool.false_eq_true, if_false, parent_path_append_snoc,
        filename_append_snoc, hne]
      rw [ih (fun pre h1 h2 => hfiles pre h1 (h2.trans (List.prefix_append ts [s]))) n
        (by simp at hn; omega)]
      simp

theorem skip_files_fixed_point (fs : FileSystem) (a : Bool) (segs : List String)
    (hfiles : ∀ pre, pre <+: segs → fs.is_directory ⟨a, pre⟩ = false)
    (n : Nat) (hn : segs.length < n) (components : List String) :
    skip_files fs n ⟨a, segs⟩ components = .ok none := by
  induction segs using List.reverseRecOn generalizing n components with
  | nil =>
    cases n with
    | zero => simp at hn
    | succ n =>
      have hf := hfiles [] (List.prefix_refl _)
      simp [skip_files, hf, parent_path]
  | append_singleton segs s ih =>
    cases n with
    | zero => simp at hn
    | succ n =>
      have hf := hfiles (segs ++ [s]) (List.prefix_refl _)
      have hp : parent_path ⟨a, segs ++ [s]⟩ = ⟨a, segs⟩ := by simp [parent_path]
      have hne : ¬ ((⟨a, segs⟩ : Path) = ⟨a, segs ++ [s]⟩) := by
        intro h
        have := congrArg (fun q => q.segs.length) h
        simp at this
      simp only [skip_files, hf, Bool.false_eq_true, if_false, hp, hne]
      exact ih (fun pre h2 => hfiles pre (h2.trans (List.prefix_append segs [s]))) n
        (by simp at hn; omega) _

theorem get_test_suite_error_cache (fs : FileSystem) (ext : Collaborators)
    (config : LitConfig) (item : Path) (st st1 : DiscoveryState) (e : Error)
    (h : get_test_suite fs ext item config st = (.error e, st1)) :
    st1.cache = st.cache := by
  unfold get_test_suite at h
  cases hc : fs.canonical (path_concat fs.current_path item) with
  | none =>
    simp only [hc, Prod.mk.injEq] at h
    rw [← h.2]
  | some item1 =>
    simp only [hc] at h
    rcases hs : skip_files fs (item1.segs.length + 1) item1 [] with e2 | _ | ⟨cur, comps⟩
    · simp only [hs, Prod.mk.injEq] at h
      rw [← h.2]
    · simp [hs] at h
    · simp only [hs] at h
      rcases hq : search_testsuit fs ext cur config st with ⟨e3 | r3, st3⟩
      · simp only [hq, Prod.mk.injEq] at h
        rw [← h.2]
        exact search_testsuit_error_cache fs ext config cur st st3 e3 hq
      · simp [hq] at h

theorem get_test_suite_loads_once (fs : FileSystem) (ext : Collaborators)
    (config : LitConfig) (item : Path) (st : DiscoveryState) :
    ∃ cur, loads_once fs config cur st (get_test_suite fs ext item config st).2 := by
  rcases get_test_suite_state fs ext config item st with h | ⟨cur, h⟩
  · exact ⟨item, Or.inl (by rw [h])⟩
  · refine ⟨cur, ?_⟩
    rw [h]
    exact search_testsuit_fuel_loads_once fs ext config _ cur st

theorem forall_prefix_of_inits (ss : List String) (P : List String → Prop)
    (h : ∀ pre ∈ ss.inits, P pre) : ∀ pre, pre <+: ss → P pre :=
  fun pre hpre => h pre ((List.mem_inits pre ss).mpr hpre)

theorem forall_nonempty_prefix_of_inits (ss : List String) (P : List String → Prop)
    (h : ∀ pre ∈ ss.inits, pre ≠ [] → P pre) : ∀ pre, pre ≠ [] → pre <+: ss → P pre :=
  fun pre hne hpre => h pre ((List.mem_inits pre ss).mpr hpre) hne

theorem walk_clear_of_inits (fs : FileSystem) (config : LitConfig) (a : Path)
    (ss : List String) (cache : List (Path × TestSuitSearchResult))
    (h : ∀ pre ∈ ss.inits, pre ≠ [] →
      dir_contains_test_suite fs (a.append pre) config = none ∧
      (fs.canonical (a.append pre)).map (fun k => map_find k cache) = some none) :
    walk_clear fs config a ss cache := by
  intro pre hne hpre
  obtain ⟨h1, h2⟩ := h pre ((List.mem_inits pre ss).mpr hpre) hne
  refine ⟨h1, ?_⟩
  cases hc : fs.canonical (a.append pre) with
  | none => simp [hc] at h2
  | some k => exact ⟨k, rfl, by simpa [hc] using h2⟩

/-! ## Auxiliary facts: fuel -/

theorem parent_path_length (path : Path) (h : parent_path path ≠ path) :
    (parent_path path).segs.length + 1 = path.segs.length := by
  have hne : path.segs ≠ [] := fun h2 => h ((parent_path_eq_self_iff path).mpr h2)
  simp only [parent_path, List.length_dropLast]
  have : 0 < path.segs.length := List.length_pos.mpr hne
  omega

theorem search_testsuit_body_congr
    (f g : Path → LitConfig → DiscoveryState → Outcome TestSuitSearchResult)
    (fs : FileSystem) (path : Path) (config : LitConfig) (st : DiscoveryState)
    (h : f path config st = g path config st) :
    search_testsuit_body f fs path config st = search_testsuit_body g fs path config st := by
  simp only [search_testsuit_body, h]

theorem search_testsuit_fuel_enough (fs : FileSystem) (ext : Collaborators)
    (config : LitConfig) (n : Nat) :
    ∀ (path : Path) (st : DiscoveryState), path.segs.length < n →
      search_testsuit_fuel fs ext n path config st = search_testsuit fs ext path config st := by
  induction n with
  | zero =>
    intro path st h
    simp at h
  | succ k ih =>
    intro path st h
    rw [search_testsuit_unfold]
    simp only [search_testsuit_fuel]
    apply search_testsuit_body_congr
    apply do_search_testsuit_congr
    intro hp
    apply ih
    have := parent_path_length path hp
    omega

theorem config_map_path_fuel (fs : FileSystem) (config : LitConfig) (m : Path) :
    config_map_path fs config m ≠ .error .out_of_fuel := by
  unfold config_map_path
  cases params_at "config_map" config.params with
  | none => simp
  | some a =>
    cases a with
    | no_value => simp
    | string_map table =>
      simp only
      cases fs.canonical m with
      | none => simp
      | some c =>
        simp only
        cases map_find c table <;> simp
    | other tag =>
      simp only
      cases fs.canonical m <;> simp

theorem do_search_testsuit_fuel_free (fs : FileSystem) (ext : Collaborators)
    (search : Path → LitConfig → DiscoveryState → Outcome TestSuitSearchResult)
    (path : Path) (config : LitConfig) (st : DiscoveryState)
    (hsearch : parent_path path ≠ path →
      (search (parent_path path) config st).1 ≠ .error .out_of_fuel) :
    (do_search_testsuit fs ext search path config st).1 ≠ .error .out_of_fuel := by
  unfold do_search_testsuit
  cases dir_contains_test_suite fs path config with
  | none =>
    simp only
    by_cases hp : parent_path path = path
    · simp [hp]
    · simp only [hp, if_false]
      have := hsearch hp
      rcases hs : search (parent_path path) config st with ⟨e | r, st1⟩
      · rw [hs] at this
        simpa using this
      · simp
  | some m =>
    simp only
    have hcm := config_map_path_fuel fs config m
    cases hc : config_map_path fs config m with
    | error e =>
      rw [hc] at hcm
      simpa using hcm
    | ok p =>
      simp only
      cases ext.loadFromPath (ext.fromDefaults config) p config <;> simp

theorem search_testsuit_fuel_free (fs : FileSystem) (ext : Collaborators)
    (config : LitConfig) (n : Nat) :
    ∀ (path : Path) (st : DiscoveryState), path.segs.length < n →
      (search_testsuit_fuel fs ext n path config st).1 ≠ .error .out_of_fuel := by
  induction n with
  | zero =>
    intro path st h
    simp at h
  | succ k ih =>
    intro path st h
    simp only [search_testsuit_fuel, search_testsuit_body]
    cases fs.canonical path with
    | none => simp
    | some key =>
      simp only
      cases map_find key st.cache with
      | some found => simp
      | none =>
        simp only
        have hdo := do_search_testsuit_fuel_free fs ext (search_testsuit_fuel fs ext k)
          path config st (fun hp => ih _ st (by have := parent_path_length path hp; omega))
        rcases hs : do_search_testsuit fs ext (search_testsuit_fuel fs ext k) path config st
          with ⟨e | r, st1⟩
        · rw [hs] at hdo
          simpa using hdo
        · simp

theorem skip_files_fuel_free (fs : FileSystem) (n : Nat) :
    ∀ (cur : Path) (components : List String), cur.segs.length < n →
      skip_files fs n cur components ≠ .error .out_of_fuel := by
  induction n with
  | zero =>
    intro cur components h
    simp at h
  | succ k ih =>
    intro cur components h
    simp only [skip_files]
    by_cases hd : fs.is_directory cur = true
    · simp [hd]
    · simp only [hd, if_false]
      by_cases hp : parent_path cur = cur
      · simp [hp]
      · simp only [hp, if_false]
        exact ih _ _ (by have := parent_path_length cur hp; omega)

theorem get_test_suite_fuel_free (fs : FileSystem) (ext : Collaborators)
    (config : LitConfig) (item : Path) (st : DiscoveryState) :
    (get_test_suite fs ext item config st).1 ≠ .error .out_of_fuel := by
  unfold get_test_suite
  cases fs.canonical (path_concat fs.current_path item) with
  | none => simp
  | some item1 =>
    simp only
    have hskip := skip_files_fuel_free fs (item1.segs.length + 1) item1 []
      (Nat.lt_succ_self _)
    rcases hs : skip_files fs (item1.segs.length + 1) item1 [] with e | _ | ⟨cur, comps⟩
    · rw [hs] at hskip
      simpa using hskip
    · simp
    · simp only
      have hfree := search_testsuit_fuel_free fs ext config _ cur st (Nat.lt_succ_self _)
      rcases hq : search_testsuit fs ext cur config st with ⟨e2 | r2, st2⟩
      · unfold search_testsuit at hq
        rw [hq] at hfree
        simpa using hfree
      · simp

/-! ## Auxiliary facts: the debug flag and the dependence on the state -/

theorem with_debug_self (config : LitConfig) : with_debug config config.debug = config := by
  cases config
  rfl

theorem do_search_testsuit_agree (fs : FileSystem) (ext : Collaborators)
    (search search2 : Path → LitConfig → DiscoveryState → Outcome TestSuitSearchResult)
    (path : Path) (config : LitConfig) (b : Bool) (st st2 : DiscoveryState)
    (hdef : ext.fromDefaults (with_debug config b) = ext.fromDefaults config)
    (hload : ∀ c p, ext.loadFromPath c p (with_debug config b) = ext.loadFromPath c p config)
    (hcache : st.cache = st2.cache)
    (hsearch : parent_path path ≠ path →
      agree_upto_notes st st2 (search (parent_path path) config st)
        (search2 (parent_path path) (with_debug config b) st2)) :
    agree_upto_notes st st2 (do_search_testsuit fs ext search path config st)
      (do_search_testsuit fs ext search2 path (with_debug config b) st2) := by
  have hd : dir_contains_test_suite fs path (with_debug config b)
      = dir_contains_test_suite fs path config := rfl
  unfold do_search_testsuit
  rw [hd]
  cases dir_contains_test_suite fs path config with
  | none =>
    simp only
    by_cases hp : parent_path path = path
    · simp only [hp, if_true]
      exact ⟨rfl, hcache, fun h => h⟩
    · simp only [hp, if_false]
      obtain ⟨h1, h2, h3⟩ := hsearch hp
      rcases hs : search (parent_path path) config st with ⟨e | r, st1⟩ <;>
        rcases hs2 : search2 (parent_path path) (with_debug config b) st2
          with ⟨e2 | r2, st3⟩ <;>
        rw [hs, hs2] at h1 h2 h3 <;> simp only at h1 h2 h3
      · exact ⟨h1, h2, h3⟩
      · cases h1
      · cases h1
      · refine ⟨?_, h2, h3⟩
        cases h1
        rfl
  | some m =>
    simp only
    have hcm : config_map_path fs (with_debug config b) m = config_map_path fs config m := rfl
    rw [hcm, hdef]
    cases config_map_path fs config m with
    | error e => exact ⟨rfl, hcache, fun h => h⟩
    | ok p =>
      simp only
      rw [hload]
      cases ext.loadFromPath (ext.fromDefaults config) p config <;>
        cases config.debug <;> cases b <;>
        exact ⟨rfl, hcache, fun h => by simp [with_debug, h]⟩

theorem search_testsuit_fuel_agree (fs : FileSystem) (ext : Collaborators)
    (config : LitConfig) (b : Bool)
    (hdef : ext.fromDefaults (with_debug config b) = ext.fromDefaults config)
    (hload : ∀ c p, ext.loadFromPath c p (with_debug config b) = ext.loadFromPath c p config)
    (n : Nat) :
    ∀ (path : Path) (st st2 : DiscoveryState), st.cache = st2.cache →
      agree_upto_notes st st2 (search_testsuit_fuel fs ext n path config st)
        (search_testsuit_fuel fs ext n path (with_debug config b) st2) := by
  induction n with
  | zero =>
    intro path st st2 hcache
    exact ⟨rfl, hcache, fun h => h⟩
  | succ k ih =>
    intro path st st2 hcache
    simp only [search_testsuit_fuel, search_testsuit_body]
    cases fs.canonical path with
    | none => exact ⟨rfl, hcache, fun h => h⟩
    | some key =>
      simp only
      rw [← hcache]
      cases map_find key st.cache with
      | some found => exact ⟨rfl, hcache, fun h => h⟩
      | none =>
        simp only
        obtain ⟨h1, h2, h3⟩ := do_search_testsuit_agree fs ext
          (search_testsuit_fuel fs ext k) (search_testsuit_fuel fs ext k) path config b
          st st2 hdef hload hcache (fun _ => ih _ st st2 hcache)
        rcases hs : do_search_testsuit fs ext (search_testsuit_fuel fs ext k) path config st
          with ⟨e | r, st1⟩ <;>
          rcases hs2 : do_search_testsuit fs ext (search_testsuit_fuel fs ext k) path
            (with_debug config b) st2 with ⟨e2 | r2, st3⟩ <;>
          rw [hs, hs2] at h1 h2 h3 <;> simp only at h1 h2 h3
        · exact ⟨h1, h2, h3⟩
        · cases h1
        · cases h1
        · cases h1
          exact ⟨rfl, by simp only [h2], h3⟩

theorem search_testsuit_agree (fs : FileSystem) (ext : Collaborators)
    (config : LitConfig) (b : Bool)
    (hdef : ext.fromDefaults (with_debug config b) = ext.fromDefaults config)
    (hload : ∀ c p, ext.loadFromPath c p (with_debug config b) = ext.loadFromPath c p config)
    (path : Path) (st st2 : DiscoveryState) (hcache : st.cache = st2.cache) :
    agree_upto_notes st st2 (search_testsuit fs ext path config st)
      (search_testsuit fs ext path (with_debug config b) st2) :=
  search_testsuit_fuel_agree fs ext config b hdef hload _ path st st2 hcache

/-- The value or exception of `search_testsuit`, and the cache it leaves, depend on the
state only through the cache. -/
theorem search_testsuit_cache_only (fs : FileSystem) (ext : Collaborators)
    (config : LitConfig) (path : Path) (st st2 : DiscoveryState)
    (hcache : st.cache = st2.cache) :
    (search_testsuit fs ext path config st).1 = (search_testsuit fs ext path config st2).1 ∧
    (search_testsuit fs ext path config st).2.cache =
      (search_testsuit fs ext path config st2).2.cache := by
  have h := search_testsuit_agree fs ext config config.debug
    (by rw [with_debug_self]) (by intro c p; rw [with_debug_self]) path st st2 hcache
  rw [with_debug_self] at h
  exact ⟨h.1, h.2.1⟩

theorem get_test_suite_agree (fs : FileSystem) (ext : Collaborators)
    (config : LitConfig) (b : Bool)
    (hdef : ext.fromDefaults (with_debug config b) = ext.fromDefaults config)
    (hload : ∀ c p, ext.loadFromPath c p (with_debug config b) = ext.loadFromPath c p config)
    (item : Path) (st st2 : DiscoveryState) (hcache : st.cache = st2.cache) :
    agree_upto_notes st st2 (get_test_suite fs ext item config st)
      (get_test_suite fs ext item (with_debug config b) st2) := by
  unfold get_test_suite
  cases fs.canonical (path_concat fs.current_path item) with
  | none => exact ⟨rfl, hcache, fun h => h⟩
  | some item1 =>
    simp only
    rcases skip_files fs (item1.segs.length + 1) item1 [] with e | _ | ⟨cur, comps⟩
    · exact ⟨rfl, hcache, fun h => h⟩
    · exact ⟨rfl, hcache, fun h => h⟩
    · simp only
      obtain ⟨h1, h2, h3⟩ := search_testsuit_agree fs ext config b hdef hload cur st st2 hcache
      rcases hs : search_testsuit fs ext cur config st with ⟨e | r, st1⟩ <;>
        rcases hs2 : search_testsuit fs ext cur (with_debug config b) st2
          with ⟨e2 | r2, st3⟩ <;>
        rw [hs, hs2] at h1 h2 h3 <;> simp only at h1 h2 h3
      · exact ⟨h1, h2, h3⟩
      · cases h1
      · cases h1
      · cases h1
        exact ⟨rfl, h2, h3⟩

/-! ## Auxiliary facts: the local config chain -/

theorem search_local_config_fuel_succ (fs : FileSystem) (ext : Collaborators)
    (testSuit : TestSuite) (litConfig : LitConfig) (n : Nat) (p : List String)
    (st : DiscoveryState) :
    search_local_config_fuel fs ext testSuit litConfig (n + 1) p st =
      local_config_step fs ext testSuit litConfig
        (if p.isEmpty then (.ok testSuit.config, st)
          else search_local_config_fuel fs ext testSuit litConfig n p.dropLast st) p := by
  rw [search_local_config_fuel]
  simp only [local_config_step, state_after_local_load]
  generalize (if p.isEmpty then ((.ok testSuit.config, st) : Outcome TestingConfig)
    else search_local_config_fuel fs ext testSuit litConfig n p.dropLast st) = o
  rcases o with ⟨e | parent, st1⟩
  · rfl
  · simp only
    cases choose_config_file_from_dir fs (testSuit.getSourcePath p)
      litConfig.localConfigNames with
    | none => rfl
    | some m =>
      simp only
      cases ext.loadFromPath parent m litConfig <;> cases litConfig.debug <;> rfl

theorem search_local_config_unfold (fs : FileSystem) (ext : Collaborators)
    (testSuit : TestSuite) (litConfig : LitConfig) (p : List String) (st : DiscoveryState) :
    search_local_config fs ext testSuit litConfig p st =
      local_config_step fs ext testSuit litConfig
        (if p.isEmpty then (.ok testSuit.config, st)
          else search_local_config fs ext testSuit litConfig p.dropLast st) p := by
  unfold search_local_config
  rw [search_local_config_fuel_succ]
  cases p with
  | nil => rfl
  | cons x xs =>
    have hlen : (x :: xs).dropLast.length + 1 = (x :: xs).length := by simp
    rw [hlen]

theorem search_local_config_nil (fs : FileSystem) (ext : Collaborators)
    (testSuit : TestSuite) (litConfig : LitConfig) (st : DiscoveryState) :
    search_local_config fs ext testSuit litConfig [] st =
      local_config_step fs ext testSuit litConfig (.ok testSuit.config, st) [] := by
  rw [search_local_config_unfold]
  rfl

theorem search_local_config_snoc (fs : FileSystem) (ext : Collaborators)
    (testSuit : TestSuite) (litConfig : LitConfig) (p : List String) (s : String)
    (st : DiscoveryState) :
    search_local_config fs ext testSuit litConfig (p ++ [s]) st =
      local_config_step fs ext testSuit litConfig
        (search_local_config fs ext testSuit litConfig p st) (p ++ [s]) := by
  rw [search_local_config_unfold]
  simp

theorem search_local_config_of_ne_nil (fs : FileSystem) (ext : Collaborators)
    (testSuit : TestSuite) (litConfig : LitConfig) (p : List String) (st : DiscoveryState)
    (hp : p ≠ []) :
    search_local_config fs ext testSuit litConfig p st =
      local_config_step fs ext testSuit litConfig
        (search_local_config fs ext testSuit litConfig p.dropLast st) p := by
  rw [search_local_config_unfold]
  cases p with
  | nil => exact absurd rfl hp
  | cons x xs => simp

theorem local_config_step_value (fs : FileSystem) (ext : Collaborators)
    (testSuit : TestSuite) (litConfig : LitConfig) (o1 o2 : Outcome TestingConfig)
    (pre : List String) (h : o1.1 = o2.1) :
    (local_config_step fs ext testSuit litConfig o1 pre).1 =
      (local_config_step fs ext testSuit litConfig o2 pre).1 := by
  obtain ⟨r1, st1⟩ := o1
  obtain ⟨r2, st2⟩ := o2
  simp only at h
  subst h
  cases r1 with
  | error e => rfl
  | ok c =>
    simp only [local_config_step]
    cases choose_config_file_from_dir fs (testSuit.getSourcePath pre)
      litConfig.localConfigNames with
    | none => rfl
    | some m =>
      simp only
      cases ext.loadFromPath c m litConfig <;> rfl

/-- The configuration `search_local_config` returns does not depend on the state it is
started in. -/
theorem search_local_config_value (fs : FileSystem) (ext : Collaborators)
    (testSuit : TestSuite) (litConfig : LitConfig) (p : List String)
    (st st2 : DiscoveryState) :
    (search_local_config fs ext testSuit litConfig p st).1 =
      (search_local_config fs ext testSuit litConfig p st2).1 := by
  induction p using List.reverseRecOn with
  | nil =>
    rw [search_local_config_nil, search_local_config_nil]
    exact local_config_step_value fs ext testSuit litConfig _ _ _ rfl
  | append_singleton p s ih =>
    rw [search_local_config_snoc, search_local_config_snoc]
    exact local_config_step_value fs ext testSuit litConfig _ _ _ ih

theorem inits_snoc (p : List String) (x : String) :
    (p ++ [x]).inits = p.inits ++ [p ++ [x]] := by
  rw [List.inits_append]
  simp [List.inits]

theorem local_config_fold_snoc (fs : FileSystem) (ext : Collaborators)
    (testSuit : TestSuite) (litConfig : LitConfig) (p : List String) (x : String)
    (st : DiscoveryState) :
    local_config_fold fs ext testSuit litConfig (p ++ [x]) st =
      local_config_step fs ext testSuit litConfig
        (local_config_fold fs ext testSuit litConfig p st) (p ++ [x]) := by
  simp only [local_config_fold, inits_snoc, List.foldl_append, List.foldl_cons,
    List.foldl_nil]

theorem search_local_config_eq_fold (fs : FileSystem) (ext : Collaborators)
    (testSuit : TestSuite) (litConfig : LitConfig) (p : List String) (st : DiscoveryState) :
    search_local_config fs ext testSuit litConfig p st =
      local_config_fold fs ext testSuit litConfig p st := by
  induction p using List.reverseRecOn with
  | nil =>
    rw [search_local_config_nil]
    rfl
  | append_singleton p x ih =>
    rw [search_local_config_snoc, local_config_fold_snoc, ih]

theorem local_config_foldl_error (fs : FileSystem) (ext : Collaborators)
    (testSuit : TestSuite) (litConfig : LitConfig) (l : List (List String)) (e : Error)
    (st : DiscoveryState) :
    l.foldl (local_config_step fs ext testSuit litConfig) (.error e, st) = (.error e, st) := by
  induction l with
  | nil => rfl
  | cons x xs ih =>
    rw [List.foldl_cons]
    exact ih

theorem local_config_foldl_loads (fs : FileSystem) (ext : Collaborators)
    (testSuit : TestSuite) (litConfig : LitConfig) (l : List (List String)) :
    ∀ (c c2 : TestingConfig) (st st2 : DiscoveryState),
      l.foldl (local_config_step fs ext testSuit litConfig) (.ok c, st) = (.ok c2, st2) →
      st2.loads = st.loads ++ l.filterMap (fun pre =>
        choose_config_file_from_dir fs (testSuit.getSourcePath pre)
          litConfig.localConfigNames) := by
  induction l with
  | nil =>
    intro c c2 st st2 h
    simp only [List.foldl_nil, Prod.mk.injEq] at h
    simp [← h.2]
  | cons x xs ih =>
    intro c c2 st st2 h
    rw [List.foldl_cons] at h
    cases hc : choose_config_file_from_dir fs (testSuit.getSourcePath x)
      litConfig.localConfigNames with
    | none =>
      have hstep : local_config_step fs ext testSuit litConfig (.ok c, st) x = (.ok c, st) := by
        simp only [local_config_step, hc]
      rw [hstep] at h
      rw [ih c c2 st st2 h]
      simp [List.filterMap_cons, hc]
    | some m =>
      cases hl : ext.loadFromPath c m litConfig with
      | none =>
        have hstep : local_config_step fs ext testSuit litConfig (.ok c, st) x
            = (.error (.load_failed m), state_after_local_load litConfig m st) := by
          simp only [local_config_step, hc, hl]
        rw [hstep, local_config_foldl_error] at h
        simp at h
      | some c1 =>
        have hstep : local_config_step fs ext testSuit litConfig (.ok c, st) x
            = (.ok c1, state_after_local_load litConfig m st) := by
          simp only [local_config_step, hc, hl]
        rw [hstep] at h
        rw [ih c1 c2 _ st2 h]
        simp [List.filterMap_cons, hc, state_after_local_load]

theorem do_search_testsuit_notes (fs : FileSystem) (ext : Collaborators)
    (search : Path → LitConfig → DiscoveryState → Outcome TestSuitSearchResult)
    (path : Path) (config : LitConfig) (st : DiscoveryState)
    (hdebug : config.debug = false)
    (hsearch : (search (parent_path path) config st).2.notes = st.notes) :
    (do_search_testsuit fs ext search path config st).2.notes = st.notes := by
  unfold do_search_testsuit
  cases dir_contains_test_suite fs path config with
  | none =>
    simp only
    by_cases hp : parent_path path = path
    · simp [hp]
    · simp only [hp, if_false]
      rcases hs : search (parent_path path) config st with ⟨e | r, st1⟩ <;>
        rw [hs] at hsearch <;> exact hsearch
  | some m =>
    simp only
    cases config_map_path fs config m with
    | error e => rfl
    | ok p =>
      simp only [hdebug]
      cases ext.loadFromPath (ext.fromDefaults config) p config <;> rfl

theorem search_testsuit_fuel_notes (fs : FileSystem) (ext : Collaborators)
    (config : LitConfig) (hdebug : config.debug = false) (n : Nat) :
    ∀ (path : Path) (st : DiscoveryState),
      (search_testsuit_fuel fs ext n path config st).2.notes = st.notes := by
  induction n with
  | zero =>
    intro path st
    rfl
  | succ k ih =>
    intro path st
    simp only [search_testsuit_fuel, search_testsuit_body]
    cases fs.canonical path with
    | none => rfl
    | some key =>
      simp only
      cases map_find key st.cache with
      | some found => rfl
      | none =>
        simp only
        have hdo := do_search_testsuit_notes fs ext (search_testsuit_fuel fs ext k) path
          config st hdebug (ih _ st)
        rcases hs : do_search_testsuit fs ext (search_testsuit_fuel fs ext k) path config st
          with ⟨e | r, st1⟩ <;> rw [hs] at hdo <;> exact hdo

theorem get_test_suite_notes (fs : FileSystem) (ext : Collaborators)
    (config : LitConfig) (hdebug : config.debug = false) (item : Path)
    (st : DiscoveryState) :
    (get_test_suite fs ext item config st).2.notes = st.notes := by
  rcases get_test_suite_state fs ext config item st with h | ⟨cur, h⟩
  · rw [h]
  · rw [h]
    exact search_testsuit_fuel_notes fs ext config hdebug _ cur st

theorem local_config_step_notes (fs : FileSystem) (ext : Collaborators)
    (testSuit : TestSuite) (litConfig : LitConfig) (hdebug : litConfig.debug = false)
    (o : Outcome TestingConfig) (pre : List String) :
    (local_config_step fs ext testSuit litConfig o pre).2.notes = o.2.notes := by
  obtain ⟨r, st⟩ := o
  cases r with
  | error e => rfl
  | ok c =>
    simp only [local_config_step]
    cases choose_config_file_from_dir fs (testSuit.getSourcePath pre)
      litConfig.localConfigNames with
    | none => rfl
    | some m =>
      simp only
      cases ext.loadFromPath c m litConfig <;> simp [state_after_local_load, hdebug]

theorem search_local_config_notes (fs : FileSystem) (ext : Collaborators)
    (testSuit : TestSuite) (litConfig : LitConfig) (hdebug : litConfig.debug = false)
    (p : List String) (st : DiscoveryState) :
    (search_local_config fs ext testSuit litConfig p st).2.notes = st.notes := by
  induction p using List.reverseRecOn with
  | nil =>
    rw [search_local_config_nil]
    exact local_config_step_notes fs ext testSuit litConfig hdebug _ _
  | append_singleton p x ih =>
    rw [search_local_config_snoc, local_config_step_notes fs ext testSuit litConfig hdebug]
    exact ih

theorem local_config_step_agree (fs : FileSystem) (ext : Collaborators)
    (testSuit : TestSuite) (litConfig : LitConfig) (b : Bool)
    (hload : ∀ c p, ext.loadFromPath c p (with_debug litConfig b)
      = ext.loadFromPath c p litConfig)
    (o o2 : Outcome TestingConfig) (pre : List String)
    (h1 : o.1 = o2.1) (h2 : o.2.cache = o2.2.cache) (h3 : o.2.loads = o2.2.loads) :
    (local_config_step fs ext testSuit litConfig o pre).1 =
        (local_config_step fs ext testSuit (with_debug litConfig b) o2 pre).1 ∧
      (local_config_step fs ext testSuit litConfig o pre).2.cache =
        (local_config_step fs ext testSuit (with_debug litConfig b) o2 pre).2.cache ∧
      (local_config_step fs ext testSuit litConfig o pre).2.loads =
        (local_config_step fs ext testSuit (with_debug litConfig b) o2 pre).2.loads := by
  obtain ⟨r, st⟩ := o
  obtain ⟨r2, st2⟩ := o2
  simp only at h1 h2 h3
  subst h1
  have hn : (with_debug litConfig b).localConfigNames = litConfig.localConfigNames := rfl
  cases r with
  | error e => exact ⟨rfl, h2, h3⟩
  | ok c =>
    simp only [local_config_step, hn]
    cases choose_config_file_from_dir fs (testSuit.getSourcePath pre)
      litConfig.localConfigNames with
    | none => exact ⟨rfl, h2, h3⟩
    | some m =>
      simp only
      rw [hload]
      cases ext.loadFromPath c m litConfig <;>
        exact ⟨rfl, h2, by simp [state_after_local_load, h3]⟩

theorem search_local_config_agree (fs : FileSystem) (ext : Collaborators)
    (testSuit : TestSuite) (litConfig : LitConfig) (b : Bool)
    (hload : ∀ c p, ext.loadFromPath c p (with_debug litConfig b)
      = ext.loadFromPath c p litConfig)
    (p : List String) (st : DiscoveryState) :
    (search_local_config fs ext testSuit litConfig p st).1 =
        (search_local_config fs ext testSuit (with_debug litConfig b) p st).1 ∧
      (search_local_config fs ext testSuit litConfig p st).2.cache =
        (search_local_config fs ext testSuit (with_debug litConfig b) p st).2.cache ∧
      (search_local_config fs ext testSuit litConfig p st).2.loads =
        (search_local_config fs ext testSuit (with_debug litConfig b) p st).2.loads := by
  induction p using List.reverseRecOn with
  | nil =>
    rw [search_local_config_nil, search_local_config_nil]
    exact local_config_step_agree fs ext testSuit litConfig b hload _ _ _ rfl rfl rfl
  | append_singleton p x ih =>
    rw [search_local_config_snoc, search_local_config_snoc]
    exact local_config_step_agree fs ext testSuit litConfig b hload _ _ _ ih.1 ih.2.1 ih.2.2

theorem get_test_suite_of_file (fs : FileSystem) (ext : Collaborators)
    (config : LitConfig) (item i b : Path) (ts : List String) (st : DiscoveryState)
    (hitem : fs.canonical (path_concat fs.current_path item) = some i)
    (hi : i = b.append ts) (hb : fs.is_directory b = true)
    (hfiles : ∀ pre, pre ≠ [] → pre <+: ts → fs.is_directory (b.append pre) = false) :
    get_test_suite fs ext item config st =
      match search_testsuit fs ext b config st with
      | (.error e, st1) => (.error e, st1)
      | (.ok res, st1) => (.ok (res.1, res.2 ++ ts), st1) := by
  have hskip := skip_files_reaches fs b ts hb hfiles (i.segs.length + 1)
    (by rw [hi]; simp [Path.append]; omega) []
  rw [← hi] at hskip
  simp only [get_test_suite, hitem, hskip, List.nil_append, List.reverse_reverse,
    foldl_push_back]

theorem get_test_suite_twice (fs : FileSystem) (ext : Collaborators)
    (config : LitConfig) (item : Path) (st : DiscoveryState) :
    (get_test_suite fs ext item config (get_test_suite fs ext item config st).2).1 =
        (get_test_suite fs ext item config st).1 ∧
      (get_test_suite fs ext item config (get_test_suite fs ext item config st).2).2.cache =
        (get_test_suite fs ext item config st).2.cache := by
  cases hc : fs.canonical (path_concat fs.current_path item) with
  | none => simp [get_test_suite, hc]
  | some item1 =>
    rcases hs : skip_files fs (item1.segs.length + 1) item1 [] with e | _ | ⟨cur, comps⟩
    · simp [get_test_suite, hc, hs]
    · simp [get_test_suite, hc, hs]
    · rcases hq : search_testsuit fs ext cur config st with ⟨e2 | r, st1⟩
      · have hfirst : get_test_suite fs ext item config st = (.error e2, st1) := by
          simp only [get_test_suite, hc, hs, hq]
        have hsame : st1.cache = st.cache :=
          search_testsuit_error_cache fs ext config cur st st1 e2 hq
        obtain ⟨h1, _⟩ := search_testsuit_cache_only fs ext config cur st1 st hsame
        rw [hq] at h1
        rw [hfirst]
        rcases hq2 : search_testsuit fs ext cur config st1 with ⟨e3 | r3, st3⟩
        · rw [hq2] at h1
          simp only at h1
          have hc3 := search_testsuit_error_cache fs ext config cur st1 st3 e3 hq2
          simp only [get_test_suite, hc, hs, hq2]
          exact ⟨h1, hc3⟩
        · rw [hq2] at h1
          cases h1
      · have hfirst : get_test_suite fs ext item config st
            = (.ok (r.1, comps.reverse.foldl (fun acc item2 => acc ++ [item2]) r.2), st1) := by
          simp only [get_test_suite, hc, hs, hq]
        obtain ⟨k, hk, hfind⟩ := search_testsuit_ok_cached fs ext config cur st st1 r hq
        have hq2 := search_testsuit_cached fs ext cur config st1 k r hk hfind
        rw [hfirst]
        have hsecond : get_test_suite fs ext item config st1
            = (.ok (r.1, comps.reverse.foldl (fun acc item2 => acc ++ [item2]) r.2), st1) := by
          simp only [get_test_suite, hc, hs, hq2]
        show (get_test_suite fs ext item config st1).1 = _ ∧
          (get_test_suite fs ext item config st1).2.cache = _
        rw [hsecond]
        exact ⟨rfl, rfl⟩

/-! ## Auxiliary facts: the uncached search and coherence -/

theorem uncached_search_unfold (fs : FileSystem) (ext : Collaborators) (path : Path)
    (config : LitConfig) (st : DiscoveryState) :
    uncached_search fs ext path config st =
      do_search_testsuit fs ext (uncached_search fs ext) path config st := by
  simp only [uncached_search, uncached_search_fuel]
  apply do_search_testsuit_congr
  intro hp
  show _ = uncached_search_fuel fs ext ((parent_path path).segs.length + 1) _ _ _
  rw [parent_path_length path hp]

theorem do_search_testsuit_value (fs : FileSystem) (ext : Collaborators)
    (search search2 : Path → LitConfig → DiscoveryState → Outcome TestSuitSearchResult)
    (path : Path) (config : LitConfig) (st st2 : DiscoveryState)
    (hsearch : parent_path path ≠ path →
      (search (parent_path path) config st).1 = (search2 (parent_path path) config st2).1) :
    (do_search_testsuit fs ext search path config st).1 =
      (do_search_testsuit fs ext search2 path config st2).1 := by
  unfold do_search_testsuit
  cases dir_contains_test_suite fs path config with
  | none =>
    simp only
    by_cases hp : parent_path path = path
    · simp [hp]
    · simp only [hp, if_false]
      have h1 := hsearch hp
      rcases hs : search (parent_path path) config st with ⟨e | r, st1⟩ <;>
        rcases hs2 : search2 (parent_path path) config st2 with ⟨e2 | r2, st3⟩ <;>
        rw [hs, hs2] at h1 <;> simp only at h1
      · exact h1
      · cases h1
      · cases h1
      · cases h1
        rfl
  | some m =>
    simp only
    cases config_map_path fs config m with
    | error e => rfl
    | ok p =>
      simp only
      cases ext.loadFromPath (ext.fromDefaults config) p config <;> rfl

theorem uncached_search_fuel_value (fs : FileSystem) (ext : Collaborators)
    (config : LitConfig) (n : Nat) :
    ∀ (path : Path) (st st2 : DiscoveryState),
      (uncached_search_fuel fs ext n path config st).1 =
        (uncached_search_fuel fs ext n path config st2).1 := by
  induction n with
  | zero =>
    intro path st st2
    rfl
  | succ k ih =>
    intro path st st2
    simp only [uncached_search_fuel]
    exact do_search_testsuit_value fs ext _ _ path config st st2 (fun _ => ih _ st st2)

theorem uncached_search_value (fs : FileSystem) (ext : Collaborators)
    (config : LitConfig) (path : Path) (st : DiscoveryState) :
    (uncached_search fs ext path config st).1 = uncached_result fs ext path config :=
  uncached_search_fuel_value fs ext config _ path st _

theorem uncached_search_fuel_free (fs : FileSystem) (ext : Collaborators)
    (config : LitConfig) (n : Nat) :
    ∀ (path : Path) (st : DiscoveryState), path.segs.length < n →
      (uncached_search_fuel fs ext n path config st).1 ≠ .error .out_of_fuel := by
  induction n with
  | zero =>
    intro path st h
    simp at h
  | succ k ih =>
    intro path st h
    simp only [uncached_search_fuel]
    exact do_search_testsuit_fuel_free fs ext _ path config st
      (fun hp => ih _ st (by have := parent_path_length path hp; omega))

theorem do_search_testsuit_coherent (fs : FileSystem) (ext : Collaborators)
    (search : Path → LitConfig → DiscoveryState → Outcome TestSuitSearchResult)
    (path : Path) (config : LitConfig) (st : DiscoveryState)
    (hst : cache_coherent fs ext config st.cache)
    (hsearch : parent_path path ≠ path →
      cache_coherent fs ext config (search (parent_path path) config st).2.cache) :
    cache_coherent fs ext config (do_search_testsuit fs ext search path config st).2.cache := by
  unfold do_search_testsuit
  cases dir_contains_test_suite fs path config with
  | none =>
    simp only
    by_cases hp : parent_path path = path
    · simpa [hp] using hst
    · simp only [hp, if_false]
      have h1 := hsearch hp
      rcases hs : search (parent_path path) config st with ⟨e | r, st1⟩ <;>
        rw [hs] at h1 <;> exact h1
  | some m =>
    simp only
    cases config_map_path fs config m with
    | error e => exact hst
    | ok p =>
      simp only
      cases ext.loadFromPath (ext.fromDefaults config) p config <;>
        cases config.debug <;> exact hst

theorem search_testsuit_coherent_aux (fs : FileSystem) (ext : Collaborators)
    (config : LitConfig) (n : Nat) :
    ∀ (path : Path) (st : DiscoveryState), path.segs.length < n →
      (∀ pre, pre <+: path.segs →
        fs.canonical ⟨path.absolute, pre⟩ = some ⟨path.absolute, pre⟩) →
      cache_coherent fs ext config st.cache →
      (search_testsuit fs ext path config st).1 = uncached_result fs ext path config ∧
      cache_coherent fs ext config (search_testsuit fs ext path config st).2.cache := by
  induction n with
  | zero =>
    intro path st h
    simp at h
  | succ k ih =>
    intro path st hlen hcanon hcoh
    have hself : fs.canonical path = some path := hcanon path.segs (List.prefix_refl _)
    have hparent : parent_path path ≠ path →
        (search_testsuit fs ext (parent_path path) config st).1
            = uncached_result fs ext (parent_path path) config ∧
          cache_coherent fs ext config
            (search_testsuit fs ext (parent_path path) config st).2.cache := by
      intro hp
      apply ih (parent_path path) st
      · have := parent_path_length path hp
        omega
      · intro pre hpre
        exact hcanon pre (hpre.trans (List.dropLast_prefix path.segs))
      · exact hcoh
    rw [search_testsuit_unfold]
    simp only [search_testsuit_body, hself]
    cases hf : map_find path st.cache with
    | some found => exact ⟨(hcoh path found hf).symm, hcoh⟩
    | none =>
      simp only
      have hval : (do_search_testsuit fs ext (search_testsuit fs ext) path config st).1
          = uncached_result fs ext path config := by
        rw [← uncached_search_value fs ext config path st, uncached_search_unfold]
        apply do_search_testsuit_value
        intro hp
        rw [(hparent hp).1, uncached_search_value]
      have hcache := do_search_testsuit_coherent fs ext (search_testsuit fs ext) path config
        st hcoh (fun hp => (hparent hp).2)
      rcases hs : do_search_testsuit fs ext (search_testsuit fs ext) path config st
        with ⟨e | r, st1⟩
      · rw [hs] at hval hcache
        exact ⟨hval, hcache⟩
      · rw [hs] at hval hcache
        refine ⟨hval, ?_⟩
        intro key res hfind
        by_cases hk : key = path
        · subst hk
          simp only [map_find_assign_same, Option.some.injEq] at hfind
          rw [← hfind]
          exact hval.symm
        · simp only [map_find_assign_other path key r st1.cache hk] at hfind
          exact hcache key res hfind

/-! ## Auxiliary facts: path reconstruction -/

theorem skip_files_rebuild (fs : FileSystem) (n : Nat) :
    ∀ (cur0 : Path) (comps0 : List String) (cur : Path) (comps : List String),
      skip_files fs n cur0 comps0 = .ok (some (cur, comps)) →
      cur.append comps.reverse = cur0.append comps0.reverse ∧
      cur.absolute = cur0.absolute ∧ cur.segs <+: cur0.segs := by
  induction n with
  | zero =>
    intro cur0 comps0 cur comps h
    simp [skip_files] at h
  | succ k ih =>
    intro cur0 comps0 cur comps h
    simp only [skip_files] at h
    by_cases hd : fs.is_directory cur0 = true
    · simp only [hd, if_true, Except.ok.injEq, Option.some.injEq, Prod.mk.injEq] at h
      rw [← h.1, ← h.2]
      exact ⟨rfl, rfl, List.prefix_refl _⟩
    · simp only [hd, if_false] at h
      by_cases hp : parent_path cur0 = cur0
      · simp [hp] at h
      · simp only [hp, if_false] at h
        obtain ⟨h1, h2, h3⟩ := ih _ _ cur comps h
        refine ⟨?_, h2, h3.trans (List.dropLast_prefix cur0.segs)⟩
        rw [h1, List.reverse_append, List.reverse_singleton, List.singleton_append,
          ← List.singleton_append, ← path_append_append, ← path_eq_parent_append cur0 hp]

theorem search_testsuit_fuel_rebuild (fs : FileSystem) (ext : Collaborators)
    (config : LitConfig) (i : Path) (st : DiscoveryState)
    (hcache : ∀ pre k s c, pre <+: i.segs → fs.canonical ⟨i.absolute, pre⟩ = some k →
      map_find k st.cache = some (some s, c) → s.config.testSourceRoot = none →
      s.sourceRoot.append c = ⟨i.absolute, pre⟩)
    (n : Nat) :
    ∀ (path : Path) (s : TestSuite) (c : List String) (st1 : DiscoveryState),
      path.absolute = i.absolute → path.segs <+: i.segs →
      search_testsuit_fuel fs ext n path config st = (.ok (some s, c), st1) →
      s.config.testSourceRoot = none → s.sourceRoot.append c = path := by
  induction n with
  | zero =>
    intro path s c st1 _ _ h
    simp [search_testsuit_fuel] at h
  | succ k ih =>
    intro path s c st1 habs hpre h hroot
    simp only [search_testsuit_fuel, search_testsuit_body] at h
    cases hc : fs.canonical path with
    | none => simp [hc] at h
    | some key =>
      simp only [hc] at h
      cases hf : map_find key st.cache with
      | some found =>
        simp only [hf, Prod.mk.injEq, Except.ok.injEq] at h
        have hpath : path = ⟨i.absolute, path.segs⟩ := by rw [← habs]
        rw [hpath] at hc
        rw [h.1] at hf
        rw [hcache path.segs key s c hpre hc hf hroot, ← hpath]
      | none =>
        simp only [hf] at h
        rcases hs : do_search_testsuit fs ext (search_testsuit_fuel fs ext k) path config st
          with ⟨e | r, st2⟩
        · simp [hs] at h
        · simp only [hs, Prod.mk.injEq, Except.ok.injEq] at h
          have hr : r = (some s, c) := h.1
          subst hr
          unfold do_search_testsuit at hs
          cases hd : dir_contains_test_suite fs path config with
          | none =>
            simp only [hd] at hs
            by_cases hp : parent_path path = path
            · simp [hp] at hs
            · simp only [hp, if_false] at hs
              rcases hq : search_testsuit_fuel fs ext k (parent_path path) config st
                with ⟨e2 | r2, st3⟩
              · simp [hq] at hs
              · simp only [hq, Prod.mk.injEq, Except.ok.injEq] at hs
                obtain ⟨s2, c2⟩ := r2
                simp only [Prod.mk.injEq] at hs
                obtain ⟨⟨hs1, hs2⟩, _⟩ := hs
                subst hs1
                have hrec := ih (parent_path path) s c2 st3 habs
                  ((List.dropLast_prefix path.segs).trans hpre) hq hroot
                rw [← hs2, ← path_append_append, hrec]
                exact (path_eq_parent_append path hp).symm
          | some m =>
            simp only [hd] at hs
            cases hcm : config_map_path fs config m with
            | error e2 => simp [hcm] at hs
            | ok p =>
              simp only [hcm] at hs
              cases hl : ext.loadFromPath (ext.fromDefaults config) p config with
              | none => simp [hl] at hs
              | some loaded =>
                simp only [hl, Prod.mk.injEq, Except.ok.injEq, Option.some.injEq] at hs
                obtain ⟨⟨hs1, hs2⟩, _⟩ := hs
                subst hs1
                subst hs2
                simp only at hroot
                simp only [hroot, path_append_nil]

/-! ## The config file locator -/

/-- Claim C6: `choose_config_file_from_dir dir names` is `dir/n` exactly when `n` is the
first element of `names`, in list order, for which `dir/n` exists (every earlier element
does not exist), and it is nothing if and only if no element of `names` exists in `dir`;
in particular it is nothing for the empty list. -/
theorem choose_config_file_from_dir_first_existing (fs : FileSystem) (dir : Path)
    (names : List String) :
    (∀ p, choose_config_file_from_dir fs dir names = some p ↔
      ∃ pre n post, names = pre ++ n :: post ∧
        (∀ m ∈ pre, fs.fs_exists (path_join dir m) = false) ∧
        fs.fs_exists (path_join dir n) = true ∧ p = path_join dir n) ∧
    (choose_config_file_from_dir fs dir names = none ↔
      ∀ n ∈ names, fs.fs_exists (path_join dir n) = false) ∧
    choose_config_file_from_dir fs dir [] = none :=
  ⟨fun p => choose_eq_some_iff fs dir names p, choose_eq_none_iff fs dir names, rfl⟩

/-- The site tier is tried first: `dir_contains_test_suite` returns the first existing
site-marker candidate whenever some site-marker name exists in the directory, whatever
suite-marker names exist there; when no site-marker name exists it returns the first
existing suite-marker candidate, and nothing when no suite-marker name exists either.
On a directory holding a site marker, `do_search_testsuit` does not depend on which
suite-tier files exist, and when the parameter `config_map` holds a rewrite table the
one path it loads is the canonical site marker, or its image under the table. -/
theorem dir_contains_test_suite_site_first (fs : FileSystem) (ext : Collaborators)
    (search : Path → LitConfig → DiscoveryState → Outcome TestSuitSearchResult)
    (path : Path) (config : LitConfig) (st : DiscoveryState) :
    ((∃ n ∈ config.siteConfigNames, fs.fs_exists (path_join path n) = true) →
      ∃ pre n post, config.siteConfigNames = pre ++ n :: post ∧
        (∀ m ∈ pre, fs.fs_exists (path_join path m) = false) ∧
        fs.fs_exists (path_join path n) = true ∧
        dir_contains_test_suite fs path config = some (path_join path n) ∧
        (∀ fs2 : FileSystem, fs2.canonical = fs.canonical →
          (∀ k ∈ config.siteConfigNames,
            fs2.fs_exists (path_join path k) = fs.fs_exists (path_join path k)) →
          do_search_testsuit fs2 ext search path config st =
            do_search_testsuit fs ext search path config st) ∧
        (∀ table c, params_at "config_map" config.params = some (.string_map table) →
          fs.canonical (path_join path n) = some c →
          (do_search_testsuit fs ext search path config st).2.loads =
            st.loads ++ [(map_find c table).getD c])) ∧
    ((∀ n ∈ config.siteConfigNames, fs.fs_exists (path_join path n) = false) →
      (∀ p, dir_contains_test_suite fs path config = some p ↔
        ∃ pre n post, config.configNames = pre ++ n :: post ∧
          (∀ m ∈ pre, fs.fs_exists (path_join path m) = false) ∧
          fs.fs_exists (path_join path n) = true ∧ p = path_join path n) ∧
      (dir_contains_test_suite fs path config = none ↔
        ∀ n ∈ config.configNames, fs.fs_exists (path_join path n) = false)) := by
  constructor
  · intro hsite
    obtain ⟨pre, n, post, h1, h2, h3, h4⟩ :=
      choose_first_of_exists fs path config.siteConfigNames hsite
    have hd : dir_contains_test_suite fs path config = some (path_join path n) := by
      simp [dir_contains_test_suite, h4]
    refine ⟨pre, n, post, h1, h2, h3, hd, ?_, ?_⟩
    · intro fs2 hcan hagree
      have hd2 : dir_contains_test_suite fs2 path config = some (path_join path n) := by
        simp [dir_contains_test_suite, choose_congr_fs fs fs2 path _ hagree, h4]
      simp only [do_search_testsuit, hd, hd2, config_map_path_congr_fs fs fs2 config _ hcan]
    · intro table c hpar hcan
      have hcm : config_map_path fs config (path_join path n)
          = .ok ((map_find c table).getD c) := by
        simp only [config_map_path, hpar, hcan]
        cases map_find c table <;> rfl
      simp only [do_search_testsuit, hd, hcm]
      cases ext.loadFromPath (ext.fromDefaults config) ((map_find c table).getD c) config
        <;> cases config.debug <;> simp
  · intro hnone
    have hs : choose_config_file_from_dir fs path config.siteConfigNames = none :=
      (choose_eq_none_iff fs path _).mpr hnone
    have hd : dir_contains_test_suite fs path config
        = choose_config_file_from_dir fs path config.configNames := by
      simp [dir_contains_test_suite, hs]
    rw [hd]
    exact ⟨fun p => choose_eq_some_iff fs path _ p, choose_eq_none_iff fs path _⟩

/-! ## The entry resolver and the upward search -/

/-- Claim C3, as amended: let `d` be the canonical form of the queried directory, and let
neither `d` nor any ancestor of `d` up to the root hold a suite marker.  For every cache
whose entries for `d` and its ancestors, where present, are those of this search (in
particular for the empty cache), `get_test_suite` returns no suite together with the
list of all segments of `d` from the root, outermost first; the component list is empty
only when `d` is the root. -/
theorem get_test_suite_no_suite (fs : FileSystem) (ext : Collaborators)
    (config : LitConfig) (item d : Path) (st : DiscoveryState)
    (hitem : fs.canonical (path_concat fs.current_path item) = some d)
    (hdir : fs.is_directory d = true)
    (hnone : ∀ pre, pre <+: d.segs →
      dir_contains_test_suite fs ⟨d.absolute, pre⟩ config = none)
    (hcanon : ∀ pre, pre <+: d.segs → (fs.canonical ⟨d.absolute, pre⟩).isSome = true)
    (hcache : ∀ pre k res, pre <+: d.segs → fs.canonical ⟨d.absolute, pre⟩ = some k →
      map_find k st.cache = some res → res = (none, pre)) :
    (get_test_suite fs ext item config st).1 = .ok (none, d.segs) := by
  rw [get_test_suite_of_directory fs ext item d config st hitem hdir]
  have key : ∀ ss, ss <+: d.segs →
      ∃ st2, search_testsuit fs ext ⟨d.absolute, ss⟩ config st = (.ok (none, ss), st2) := by
    intro ss
    induction ss using List.reverseRecOn with
    | nil =>
      intro hpre
      obtain ⟨k, hk⟩ := Option.isSome_iff_exists.mp (hcanon [] hpre)
      cases hfind : map_find k st.cache with
      | some res =>
        have := hcache [] k res hpre hk hfind
        subst this
        exact ⟨st, search_testsuit_cached fs ext _ config st k _ hk hfind⟩
      | none =>
        refine ⟨{ st with cache := map_assign k (none, []) st.cache }, ?_⟩
        rw [search_testsuit_unfold]
        simp only [search_testsuit_body, hk, hfind, do_search_testsuit, hnone [] hpre]
        simp [parent_path]
    | append_singleton ss s ih =>
      intro hpre
      obtain ⟨k, hk⟩ := Option.isSome_iff_exists.mp (hcanon _ hpre)
      cases hfind : map_find k st.cache with
      | some res =>
        have := hcache _ k res hpre hk hfind
        subst this
        exact ⟨st, search_testsuit_cached fs ext _ config st k _ hk hfind⟩
      | none =>
        obtain ⟨st2, h2⟩ := ih ((List.prefix_append ss [s]).trans hpre)
        have hstep := search_testsuit_step fs ext config ⟨d.absolute, []⟩ ss s k st
          (by simpa [Path.append] using hk) hfind
          (by simpa [Path.append] using hnone _ hpre)
        simp only [Path.append, List.nil_append] at hstep
        rw [hstep, h2]
        exact ⟨_, rfl⟩
  obtain ⟨st2, h2⟩ := key d.segs (List.prefix_refl _)
  have hd : d = ⟨d.absolute, d.segs⟩ := rfl
  rw [hd, h2]

/-- Claim C4: let `i` be the canonical form of the queried item.  If `i = b/t1/.../tk`
with `k >= 1`, `b` a directory and none of `b/t1`, ..., `b/t1/.../tk` a directory (`b` is
the nearest ancestor that is a directory), then `get_test_suite` returns what
`search_testsuit` returns on `b`, state and exception included, with `[t1, ..., tk]`
appended in that order to the component list.  If neither `i` nor any ancestor of `i` up
to the fixed point of `parent_path` is a directory, it returns no suite and no
components and leaves the state alone. -/
theorem get_test_suite_non_directory (fs : FileSystem) (ext : Collaborators)
    (config : LitConfig) (item i : Path) (st : DiscoveryState)
    (hitem : fs.canonical (path_concat fs.current_path item) = some i) :
    (∀ b ts, i = b.append ts → ts ≠ [] → fs.is_directory b = true →
      (∀ pre, pre ≠ [] → pre <+: ts → fs.is_directory (b.append pre) = false) →
      get_test_suite fs ext item config st =
        match search_testsuit fs ext b config st with
        | (.error e, st1) => (.error e, st1)
        | (.ok res, st1) => (.ok (res.1, res.2 ++ ts), st1)) ∧
    ((∀ pre, pre <+: i.segs → fs.is_directory ⟨i.absolute, pre⟩ = false) →
      get_test_suite fs ext item config st = (.ok (none, []), st)) := by
  constructor
  · intro b ts hi _ hb hfiles
    have hskip := skip_files_reaches fs b ts hb hfiles (i.segs.length + 1)
      (by rw [hi]; simp [Path.append]; omega) []
    rw [← hi] at hskip
    simp only [get_test_suite, hitem, hskip, List.nil_append, List.reverse_reverse,
      foldl_push_back]
  · intro hfiles
    have hskip := skip_files_fixed_point fs i.absolute i.segs hfiles (i.segs.length + 1)
      (Nat.lt_succ_self _) []
    simp only [get_test_suite, hitem, hskip]

/-- Counterexample to claim C3 as stated: `/other` is an existing directory, neither it
nor the root holds a suite marker, and `get_test_suite` returns the components
`[other]`, not the empty list. -/
theorem get_test_suite_no_suite_counterexample :
    demo_fs.canonical (path_concat demo_fs.current_path ⟨true, ["other"]⟩)
        = some ⟨true, ["other"]⟩ ∧
      demo_fs.is_directory ⟨true, ["other"]⟩ = true ∧
      dir_contains_test_suite demo_fs ⟨true, ["other"]⟩ demo_config = none ∧
      dir_contains_test_suite demo_fs ⟨true, []⟩ demo_config = none ∧
      (get_test_suite demo_fs demo_ext ⟨true, ["other"]⟩ demo_config DiscoveryState.init).1
        = .ok (none, ["other"]) ∧
      (get_test_suite demo_fs demo_ext ⟨true, ["other"]⟩ demo_config DiscoveryState.init).1
        ≠ .ok (none, []) := by
  decide

/-- Concrete instance for claim C3: `/other` resolves to no suite and the
components `[other]`. -/
theorem get_test_suite_no_suite_witness :
    (get_test_suite demo_fs demo_ext ⟨true, ["other"]⟩ demo_config DiscoveryState.init).1 =
      .ok (none, ["other"]) :=
  get_test_suite_no_suite demo_fs demo_ext demo_config ⟨true, ["other"]⟩
    ⟨true, ["other"]⟩ DiscoveryState.init (by decide) (by decide)
    (forall_prefix_of_inits ["other"]
      (fun pre => dir_contains_test_suite demo_fs ⟨true, pre⟩ demo_config = none)
      (by decide))
    (forall_prefix_of_inits ["other"]
      (fun pre => (demo_fs.canonical ⟨true, pre⟩).isSome = true) (by decide))
    (fun _ _ _ _ _ h => by cases h)

/-- Concrete instance for claim C4: the file `/proj/tests/unit/case.txt`
resolves to what the search on `/proj/tests/unit` returns, followed by `case.txt`: suite
`/proj` and components `[tests, unit, case.txt]`. -/
theorem get_test_suite_non_directory_witness :
    get_test_suite demo_fs demo_ext ⟨true, ["proj", "tests", "unit", "case.txt"]⟩
        demo_config DiscoveryState.init =
      (match search_testsuit demo_fs demo_ext ⟨true, ["proj", "tests", "unit"]⟩
          demo_config DiscoveryState.init with
        | (.error e, st1) => (.error e, st1)
        | (.ok res, st1) => (.ok (res.1, res.2 ++ ["case.txt"]), st1)) ∧
      (get_test_suite demo_fs demo_ext ⟨true, ["proj", "tests", "unit", "case.txt"]⟩
        demo_config DiscoveryState.init).1 =
        .ok (some (suite_at ⟨true, ["proj"]⟩ (demo_loaded ⟨true, ["proj", "site.cfg"]⟩)),
          ["tests", "unit", "case.txt"]) :=
  ⟨(get_test_suite_non_directory demo_fs demo_ext demo_config
      ⟨true, ["proj", "tests", "unit", "case.txt"]⟩
      ⟨true, ["proj", "tests", "unit", "case.txt"]⟩ DiscoveryState.init (by decide)).1
      ⟨true, ["proj", "tests", "unit"]⟩ ["case.txt"] (by decide) (by decide) (by decide)
      (forall_nonempty_prefix_of_inits ["case.txt"]
        (fun pre => demo_fs.is_directory
          (Path.append ⟨true, ["proj", "tests", "unit"]⟩ pre) = false) (by decide)),
    by decide⟩

/-- Concrete instance of the site-first lookup: `/proj` holds `site.cfg` and
`suite.cfg`, and the site marker is the one found. -/
theorem dir_contains_test_suite_site_first_witness :
    ∃ pre n post, demo_config.siteConfigNames = pre ++ n :: post ∧
      (∀ m ∈ pre, demo_fs.fs_exists (path_join ⟨true, ["proj"]⟩ m) = false) ∧
      demo_fs.fs_exists (path_join ⟨true, ["proj"]⟩ n) = true ∧
      dir_contains_test_suite demo_fs ⟨true, ["proj"]⟩ demo_config
        = some (path_join ⟨true, ["proj"]⟩ n) ∧
      (∀ fs2 : FileSystem, fs2.canonical = demo_fs.canonical →
        (∀ k ∈ demo_config.siteConfigNames,
          fs2.fs_exists (path_join ⟨true, ["proj"]⟩ k)
            = demo_fs.fs_exists (path_join ⟨true, ["proj"]⟩ k)) →
        do_search_testsuit fs2 demo_ext (search_testsuit demo_fs demo_ext)
            ⟨true, ["proj"]⟩ demo_config DiscoveryState.init =
          do_search_testsuit demo_fs demo_ext (search_testsuit demo_fs demo_ext)
            ⟨true, ["proj"]⟩ demo_config DiscoveryState.init) ∧
      (∀ table c, params_at "config_map" demo_config.params = some (.string_map table) →
        demo_fs.canonical (path_join ⟨true, ["proj"]⟩ n) = some c →
        (do_search_testsuit demo_fs demo_ext (search_testsuit demo_fs demo_ext)
            ⟨true, ["proj"]⟩ demo_config DiscoveryState.init).2.loads =
          DiscoveryState.init.loads ++ [(map_find c table).getD c]) :=
  (dir_contains_test_suite_site_first demo_fs demo_ext (search_testsuit demo_fs demo_ext)
    ⟨true, ["proj"]⟩ demo_config DiscoveryState.init).1 ⟨"site.cfg", by decide, by decide⟩

/-! ## The path-rewrite table -/

/-- Claim C7: when `do_search_testsuit` finds the marker `marker` in `path`, the parameter
`config_map` holds a table, and the table maps the canonical form `c` of `marker` to
`target`, then `loadFromPath` is called exactly once, with argument `target`: the log of
load calls grows by exactly `[target]`, and the outcome is the suite built from the
configuration loaded from `target`, or the failure of that load. -/
theorem do_search_testsuit_rewrite (fs : FileSystem) (ext : Collaborators)
    (search : Path → LitConfig → DiscoveryState → Outcome TestSuitSearchResult)
    (path : Path) (config : LitConfig) (st : DiscoveryState)
    (marker c target : Path) (table : List (Path × Path))
    (hm : dir_contains_test_suite fs path config = some marker)
    (hpar : params_at "config_map" config.params = some (.string_map table))
    (hcan : fs.canonical marker = some c)
    (hmap : map_find c table = some target) :
    (do_search_testsuit fs ext search path config st).2.loads = st.loads ++ [target] ∧
    (do_search_testsuit fs ext search path config st).2.cache = st.cache ∧
    (do_search_testsuit fs ext search path config st).1 =
      match ext.loadFromPath (ext.fromDefaults config) target config with
      | some tc => .ok (some (suite_at path tc), [])
      | none => .error (.load_failed target) := by
  have hcfg : config_map_path fs config marker = .ok target := by
    simp only [config_map_path, hpar, hcan, hmap]
  cases hl : ext.loadFromPath (ext.fromDefaults config) target config with
  | none =>
    rw [do_search_testsuit_marker_fail fs ext search path config st marker target hm hcfg hl]
    exact ⟨rfl, rfl, rfl⟩
  | some tc =>
    rw [do_search_testsuit_marker_ok fs ext search path config st marker target tc hm hcfg hl]
    exact ⟨rfl, rfl, rfl⟩

/-- Concrete instance for claim C7: with the table sending `/proj/site.cfg` to
`/staged/site.cfg`, the one load at `/proj` is that of `/staged/site.cfg`. -/
theorem do_search_testsuit_rewrite_witness :
    (do_search_testsuit demo_fs demo_ext (search_testsuit demo_fs demo_ext)
        ⟨true, ["proj"]⟩ demo_config_staged DiscoveryState.init).2.loads =
      DiscoveryState.init.loads ++ [⟨true, ["staged", "site.cfg"]⟩] ∧
    (do_search_testsuit demo_fs demo_ext (search_testsuit demo_fs demo_ext)
        ⟨true, ["proj"]⟩ demo_config_staged DiscoveryState.init).2.cache =
      DiscoveryState.init.cache ∧
    (do_search_testsuit demo_fs demo_ext (search_testsuit demo_fs demo_ext)
        ⟨true, ["proj"]⟩ demo_config_staged DiscoveryState.init).1 =
      match demo_ext.loadFromPath (demo_ext.fromDefaults demo_config_staged)
          ⟨true, ["staged", "site.cfg"]⟩ demo_config_staged with
      | some tc => .ok (some (suite_at ⟨true, ["proj"]⟩ tc), [])
      | none => .error (.load_failed ⟨true, ["staged", "site.cfg"]⟩) :=
  do_search_testsuit_rewrite demo_fs demo_ext (search_testsuit demo_fs demo_ext)
    ⟨true, ["proj"]⟩ demo_config_staged DiscoveryState.init
    ⟨true, ["proj", "site.cfg"]⟩ ⟨true, ["proj", "site.cfg"]⟩
    ⟨true, ["staged", "site.cfg"]⟩
    [(⟨true, ["proj", "site.cfg"]⟩, ⟨true, ["staged", "site.cfg"]⟩)]
    (by decide) (by decide) (by decide) (by decide)

/-- Claim C8, the code at the failing inputs: `/proj` holds the marker `/proj/site.cfg`.
When the parameter `config_map` holds an empty `std::any` (no table supplied), the one
load is made with the empty path, not with the marker, and the suite is built from what
the empty path loads; when there is no parameter `config_map` at all, the lookup raises
`out_of_range` and nothing is loaded.  With a table that has no entry for the marker the
marker itself is loaded. -/
theorem do_search_testsuit_without_table :
    dir_contains_test_suite demo_fs ⟨true, ["proj"]⟩ demo_config_no_table
        = some ⟨true, ["proj", "site.cfg"]⟩ ∧
      (get_test_suite demo_fs demo_ext ⟨true, ["proj"]⟩ demo_config_no_table
        DiscoveryState.init).2.loads = [Path.empty] ∧
      (get_test_suite demo_fs demo_ext ⟨true, ["proj"]⟩ demo_config_no_table
        DiscoveryState.init).1 =
          .ok (some (suite_at ⟨true, ["proj"]⟩ (demo_loaded Path.empty)), []) ∧
      (get_test_suite demo_fs demo_ext ⟨true, ["proj"]⟩ demo_config_no_param
        DiscoveryState.init).1 = .error (.out_of_range "config_map") ∧
      (get_test_suite demo_fs demo_ext ⟨true, ["proj"]⟩ demo_config_no_param
        DiscoveryState.init).2.loads = [] ∧
      (get_test_suite demo_fs demo_ext ⟨true, ["proj"]⟩ demo_config
        DiscoveryState.init).2.loads = [⟨true, ["proj", "site.cfg"]⟩] := by
  decide

/-! ## Load failures and memoization -/

/-- Claim C9: let the nearest marker above the directory `d = a/s1/.../sn` (`n >= 0`) be
the marker `m` of `a`, with no cache entry for `a` or for a directory between `a` and
`d`, and let the load of that marker fail.  Then `search_testsuit` on `d`, and
`get_test_suite` on an item whose canonical form is `d`, raise the load failure, and the
cache they leave is the cache they started from; a second search on `d` attempts the
load again and raises again.  More generally, whenever `search_testsuit` or
`get_test_suite` raises, whatever the exception, the cache is left unchanged. -/
theorem search_testsuit_load_failure (fs : FileSystem) (ext : Collaborators)
    (config : LitConfig) (item d a : Path) (ss : List String) (k m p : Path)
    (st : DiscoveryState)
    (hitem : fs.canonical (path_concat fs.current_path item) = some d)
    (hdir : fs.is_directory d = true)
    (hd : d = a.append ss)
    (hclear : walk_clear fs config a ss st.cache)
    (hk : fs.canonical a = some k) (hmiss : map_find k st.cache = none)
    (hm : dir_contains_test_suite fs a config = some m)
    (hcfg : config_map_path fs config m = .ok p)
    (hload : ext.loadFromPath (ext.fromDefaults config) p config = none) :
    (search_testsuit fs ext d config st).1 = .error (.load_failed p) ∧
    (get_test_suite fs ext item config st).1 = .error (.load_failed p) ∧
    (search_testsuit fs ext d config st).2.cache = st.cache ∧
    (get_test_suite fs ext item config st).2.cache = st.cache ∧
    (search_testsuit fs ext d config st).2.loads = st.loads ++ [p] ∧
    (search_testsuit fs ext d config (search_testsuit fs ext d config st).2).1
      = .error (.load_failed p) ∧
    (search_testsuit fs ext d config (search_testsuit fs ext d config st).2).2.loads
      = st.loads ++ [p] ++ [p] ∧
    (search_testsuit fs ext d config (search_testsuit fs ext d config st).2).2.cache
      = st.cache ∧
    (∀ path st0 e st2, search_testsuit fs ext path config st0 = (.error e, st2) →
      st2.cache = st0.cache) ∧
    (∀ item0 st0 e st2, get_test_suite fs ext item0 config st0 = (.error e, st2) →
      st2.cache = st0.cache) := by
  have h1 : search_testsuit fs ext d config st
      = (.error (.load_failed p), state_after_load config p st) := by
    rw [hd]
    exact search_testsuit_walk_error fs ext config a ss st _ _ hclear
      (search_testsuit_marker_fail fs ext a config st k m p hk hmiss hm hcfg hload)
  have h2 : search_testsuit fs ext d config (state_after_load config p st)
      = (.error (.load_failed p), state_after_load config p (state_after_load config p st)) := by
    rw [hd]
    exact search_testsuit_walk_error fs ext config a ss (state_after_load config p st) _ _
      hclear (search_testsuit_marker_fail fs ext a config _ k m p hk hmiss hm hcfg hload)
  rw [get_test_suite_of_directory fs ext item d config st hitem hdir, h1]
  refine ⟨rfl, rfl, rfl, rfl, rfl, ?_, ?_, ?_,
    fun path st0 e st2 h => search_testsuit_error_cache fs ext config path st0 st2 e h,
    fun item0 st0 e st2 h => get_test_suite_error_cache fs ext config item0 st0 st2 e h⟩
  · show (search_testsuit fs ext d config (state_after_load config p st)).1 = _
    rw [h2]
  · show (search_testsuit fs ext d config (state_after_load config p st)).2.loads = _
    rw [h2]
    rfl
  · show (search_testsuit fs ext d config (state_after_load config p st)).2.cache = _
    rw [h2]
    rfl

/-- Claim C10: after a successful search on `p` (from any state), and after any further
sequence of `search_testsuit` / `get_test_suite` calls threading the same cache, a search
on any path `q` with the canonical form of `p` returns the same result and leaves the
whole state, load log included, unchanged: it is answered from the cache; and a load
that a later call performs is never that of a directory with the canonical form of `p`.
A search on a descendant of a cached directory `root`, through directories without markers and
without cache entries, returns the cached suite without any load.  In general every
call performs at most one load, and only for the marker of a directory whose canonical
form had no cache entry when the call started. -/
theorem search_testsuit_memoized (fs : FileSystem) (ext : Collaborators)
    (config : LitConfig) (p : Path) (st st1 : DiscoveryState) (r : TestSuitSearchResult)
    (hok : search_testsuit fs ext p config st = (.ok r, st1)) :
    (∀ calls q, fs.canonical q = fs.canonical p →
      search_testsuit fs ext q config (run_calls fs ext config calls st1) =
        (.ok r, run_calls fs ext config calls st1)) ∧
    (∀ calls item q, fs.canonical (path_concat fs.current_path item) = some q →
      fs.is_directory q = true → fs.canonical q = fs.canonical p →
      get_test_suite fs ext item config (run_calls fs ext config calls st1) =
        (.ok r, run_calls fs ext config calls st1)) ∧
    (∀ root ss k res st0, fs.canonical root = some k →
      map_find k st0.cache = some res → walk_clear fs config root ss st0.cache →
      ∃ st2, search_testsuit fs ext (root.append ss) config st0 =
          (.ok (res.1, res.2 ++ ss), st2) ∧ st2.loads = st0.loads) ∧
    (∀ calls path,
      (search_testsuit fs ext path config (run_calls fs ext config calls st1)).2.loads
          = (run_calls fs ext config calls st1).loads ∨
        ∃ anc ss m p0, path = anc.append ss ∧ fs.canonical anc ≠ fs.canonical p ∧
          dir_contains_test_suite fs anc config = some m ∧
          config_map_path fs config m = .ok p0 ∧
          (search_testsuit fs ext path config (run_calls fs ext config calls st1)).2.loads
            = (run_calls fs ext config calls st1).loads ++ [p0]) ∧
    (∀ path st0, loads_once fs config path st0
      (search_testsuit fs ext path config st0).2) ∧
    (∀ item st0, ∃ cur, loads_once fs config cur st0
      (get_test_suite fs ext item config st0).2) := by
  obtain ⟨k, hk, hfind⟩ := search_testsuit_ok_cached fs ext config p st st1 r hok
  have hsearch : ∀ calls q, fs.canonical q = fs.canonical p →
      search_testsuit fs ext q config (run_calls fs ext config calls st1) =
        (.ok r, run_calls fs ext config calls st1) := by
    intro calls q hq
    exact search_testsuit_cached fs ext q config _ k r (by rw [hq, hk])
      (run_calls_keeps fs ext config calls st1 k r hfind)
  refine ⟨hsearch, ?_, ?_, ?_, ?_, ?_⟩
  · intro calls item q hitem hdir hq
    rw [get_test_suite_of_directory fs ext item q config _ hitem hdir]
    exact hsearch calls q hq
  · intro root ss k2 res st0 hcan hhit hclear
    obtain ⟨st2, h2, hl, _⟩ := search_testsuit_walk_ok fs ext config root ss st0 st0 res
      hclear (search_testsuit_cached fs ext root config st0 k2 res hcan hhit)
    exact ⟨st2, h2, hl⟩
  · intro calls path
    rcases search_testsuit_fuel_loads_once fs ext config _ path
        (run_calls fs ext config calls st1) with hsame | ⟨anc, ss, k2, m, p0, h1, h2, h3, h4, h5, h6⟩
    · exact Or.inl hsame
    · refine Or.inr ⟨anc, ss, m, p0, h1, ?_, h4, h5, h6⟩
      intro heq
      rw [h2, hk] at heq
      have hkept := run_calls_keeps fs ext config calls st1 k r hfind
      rw [← Option.some.inj heq, h3] at hkept
      cases hkept
  · intro path st0
    exact search_testsuit_fuel_loads_once fs ext config _ path st0
  · intro item st0
    exact get_test_suite_loads_once fs ext config item st0

/-- Concrete instance for claim C9: with the marker of `/proj` redirected to
a file that does not load, the search on `/proj/tests/unit` raises and the cache, which
already holds `/` and `/other`, is unchanged; the retry loads again. -/
theorem search_testsuit_load_failure_witness :
    (search_testsuit demo_fs demo_ext ⟨true, ["proj", "tests", "unit"]⟩ demo_config_broken
      (demo_warm_state demo_config_broken)).1
        = .error (.load_failed ⟨true, ["staged", "broken.cfg"]⟩) ∧
    (search_testsuit demo_fs demo_ext ⟨true, ["proj", "tests", "unit"]⟩ demo_config_broken
      (demo_warm_state demo_config_broken)).2.cache
        = (demo_warm_state demo_config_broken).cache ∧
    (search_testsuit demo_fs demo_ext ⟨true, ["proj", "tests", "unit"]⟩ demo_config_broken
      (search_testsuit demo_fs demo_ext ⟨true, ["proj", "tests", "unit"]⟩
        demo_config_broken (demo_warm_state demo_config_broken)).2).2.loads
        = (demo_warm_state demo_config_broken).loads
          ++ [⟨true, ["staged", "broken.cfg"]⟩] ++ [⟨true, ["staged", "broken.cfg"]⟩] ∧
    (demo_warm_state demo_config_broken).cache
        = [(⟨true, []⟩, (none, [])), (⟨true, ["other"]⟩, (none, ["other"]))] :=
  have h := search_testsuit_load_failure demo_fs demo_ext demo_config_broken
    ⟨true, ["proj", "tests", "unit"]⟩ ⟨true, ["proj", "tests", "unit"]⟩ ⟨true, ["proj"]⟩
    ["tests", "unit"] ⟨true, ["proj"]⟩ ⟨true, ["proj", "site.cfg"]⟩
    ⟨true, ["staged", "broken.cfg"]⟩ (demo_warm_state demo_config_broken)
    (by decide) (by decide) (by decide)
    (walk_clear_of_inits demo_fs demo_config_broken ⟨true, ["proj"]⟩ ["tests", "unit"]
      (demo_warm_state demo_config_broken).cache (by decide))
    (by decide) (by decide) (by decide) (by decide) (by decide)
  ⟨h.1, h.2.2.1, h.2.2.2.2.2.2.1, by decide⟩

/-- Concrete instance for claim C10: after the search on `/proj/tests` in the
example tree, every later search on it is answered from the cache. -/
theorem search_testsuit_memoized_witness :
    (∀ calls q, demo_fs.canonical q = demo_fs.canonical ⟨true, ["proj", "tests"]⟩ →
      search_testsuit demo_fs demo_ext q demo_config
          (run_calls demo_fs demo_ext demo_config calls
            (search_testsuit demo_fs demo_ext ⟨true, ["proj", "tests"]⟩ demo_config
              DiscoveryState.init).2) =
        (.ok (some (suite_at ⟨true, ["proj"]⟩ (demo_loaded ⟨true, ["proj", "site.cfg"]⟩)),
            ["tests"]),
          run_calls demo_fs demo_ext demo_config calls
            (search_testsuit demo_fs demo_ext ⟨true, ["proj", "tests"]⟩ demo_config
              DiscoveryState.init).2)) ∧
    (search_testsuit demo_fs demo_ext ⟨true, ["proj", "tests"]⟩ demo_config
        DiscoveryState.init).2.loads = [⟨true, ["proj", "site.cfg"]⟩] ∧
    (run_calls demo_fs demo_ext demo_config
        [.search ⟨true, ["proj", "tests"]⟩, .get ⟨true, ["proj", "tests", "unit", "case.txt"]⟩,
         .search ⟨true, ["proj"]⟩, .get ⟨true, ["proj", "tests"]⟩]
        DiscoveryState.init).loads = [⟨true, ["proj", "site.cfg"]⟩] :=
  ⟨(search_testsuit_memoized demo_fs demo_ext demo_config ⟨true, ["proj", "tests"]⟩
      DiscoveryState.init
      (search_testsuit demo_fs demo_ext ⟨true, ["proj", "tests"]⟩ demo_config
        DiscoveryState.init).2
      (some (suite_at ⟨true, ["proj"]⟩ (demo_loaded ⟨true, ["proj", "site.cfg"]⟩)),
        ["tests"])
      (by decide)).1,
    by decide, by decide⟩

/-! ## The suite built at a marker directory -/

/-- Claim C12: when `do_search_testsuit` finds a marker in `path` and the load succeeds
with the configuration `loaded`, it returns a suite and no components; the suite's name
is the name of `loaded`, its configuration is `loaded`, its source root is the declared
test source root of `loaded` if there is one and `path` otherwise, and its exec root is
the declared test exec root if there is one and `path` otherwise, each root decided on
its own. -/
theorem do_search_testsuit_suite_fields (fs : FileSystem) (ext : Collaborators)
    (search : Path → LitConfig → DiscoveryState → Outcome TestSuitSearchResult)
    (path : Path) (config : LitConfig) (st : DiscoveryState) (m p : Path)
    (loaded : TestingConfig)
    (hm : dir_contains_test_suite fs path config = some m)
    (hcfg : config_map_path fs config m = .ok p)
    (hload : ext.loadFromPath (ext.fromDefaults config) p config = some loaded) :
    ∃ suite, (do_search_testsuit fs ext search path config st).1 = .ok (some suite, []) ∧
      suite.name = loaded.name ∧ suite.config = loaded ∧
      (∀ root, loaded.testSourceRoot = some root → suite.sourceRoot = root) ∧
      (loaded.testSourceRoot = none → suite.sourceRoot = path) ∧
      (∀ root, loaded.testExecRoot = some root → suite.execRoot = root) ∧
      (loaded.testExecRoot = none → suite.execRoot = path) := by
  refine ⟨suite_at path loaded, ?_, rfl, rfl, ?_, ?_, ?_, ?_⟩
  · rw [do_search_testsuit_marker_ok fs ext search path config st m p loaded hm hcfg hload]
  · intro root h
    simp [suite_at, h]
  · intro h
    simp [suite_at, h]
  · intro root h
    simp [suite_at, h]
  · intro h
    simp [suite_at, h]

/-! ## The local config chain -/

/-- Counterexample to claim C13 as stated: in the tree where `/suite` holds `suite.cfg`
and `local.cfg`, the suite found at `/suite` has source root `/suite`, and
`search_local_config` on the empty path loads `/suite/local.cfg` into the suite's
configuration: the result is not the suite's own configuration. -/
theorem search_local_config_empty_counterexample :
    (get_test_suite rooted_fs demo_ext ⟨true, ["suite"]⟩ demo_config DiscoveryState.init).1
        = .ok (some rooted_suite, []) ∧
      (search_local_config rooted_fs demo_ext rooted_suite demo_config []
        DiscoveryState.init).2.loads = [⟨true, ["suite", "local.cfg"]⟩] ∧
      (search_local_config rooted_fs demo_ext rooted_suite demo_config []
        DiscoveryState.init).1 ≠ .ok rooted_suite.config := by
  decide

/-- Claim C13, as amended: on the empty path-in-suite, `search_local_config` returns
exactly the suite's own configuration, with no load and the state untouched, when the
suite's source root holds none of the local-override marker names; when it holds one,
the first existing candidate `m` is loaded into a copy of the suite's configuration and
the outcome of that load is returned. -/
theorem search_local_config_empty (fs : FileSystem) (ext : Collaborators)
    (testSuit : TestSuite) (litConfig : LitConfig) (st : DiscoveryState) :
    ((∀ n ∈ litConfig.localConfigNames,
        fs.fs_exists (path_join testSuit.sourceRoot n) = false) →
      search_local_config fs ext testSuit litConfig [] st = (.ok testSuit.config, st)) ∧
    (∀ pre n post, litConfig.localConfigNames = pre ++ n :: post →
      (∀ x ∈ pre, fs.fs_exists (path_join testSuit.sourceRoot x) = false) →
      fs.fs_exists (path_join testSuit.sourceRoot n) = true →
      search_local_config fs ext testSuit litConfig [] st =
        match ext.loadFromPath testSuit.config (path_join testSuit.sourceRoot n) litConfig with
        | none => (.error (.load_failed (path_join testSuit.sourceRoot n)),
            state_after_local_load litConfig (path_join testSuit.sourceRoot n) st)
        | some loaded =>
          (.ok loaded,
            state_after_local_load litConfig (path_join testSuit.sourceRoot n) st)) := by
  have hsrc : testSuit.getSourcePath [] = testSuit.sourceRoot := path_append_nil _
  constructor
  · intro hnone
    rw [search_local_config_nil]
    simp only [local_config_step, hsrc, (choose_eq_none_iff fs _ _).mpr hnone]
  · intro pre n post hsplit hpre hn
    have hc : choose_config_file_from_dir fs testSuit.sourceRoot litConfig.localConfigNames
        = some (path_join testSuit.sourceRoot n) :=
      (choose_eq_some_iff fs _ _ _).mpr ⟨pre, n, post, hsplit, hpre, hn, rfl⟩
    rw [search_local_config_nil]
    simp only [local_config_step, hsrc, hc]

/-- Claim C14: for a non-empty component list `p` whose source directory holds none of
the local-override marker names, `search_local_config` on `p` is `search_local_config`
on `p` without its last element, as whole outcomes: same configuration or exception and
same state, so no load and no note at the level of `p`. -/
theorem search_local_config_transparent (fs : FileSystem) (ext : Collaborators)
    (testSuit : TestSuite) (litConfig : LitConfig) (p : List String) (st : DiscoveryState)
    (hp : p ≠ [])
    (hnone : ∀ n ∈ litConfig.localConfigNames,
      fs.fs_exists (path_join (testSuit.getSourcePath p) n) = false) :
    search_local_config fs ext testSuit litConfig p st =
      search_local_config fs ext testSuit litConfig p.dropLast st := by
  rw [search_local_config_of_ne_nil fs ext testSuit litConfig p st hp]
  rcases search_local_config fs ext testSuit litConfig p.dropLast st with ⟨e | parent, st1⟩
  · rfl
  · simp only [local_config_step, (choose_eq_none_iff fs _ _).mpr hnone]

/-- Claim C15: for a non-empty component list `p` whose source directory holds a
local-override marker, with `n` the first existing name in local-config-name order,
`search_local_config` on `p` is the load of that marker into the configuration returned
for `p` without its last element (or the exception raised there, or the failure of the
load).  The configuration returned for any path, so for the parent prefix in
particular, is the same before and after resolving `p`; the suite is a value the call
does not change. -/
theorem search_local_config_override (fs : FileSystem) (ext : Collaborators)
    (testSuit : TestSuite) (litConfig : LitConfig) (p : List String) (st : DiscoveryState)
    (pre post : List String) (n : String)
    (hp : p ≠ [])
    (hsplit : litConfig.localConfigNames = pre ++ n :: post)
    (hpre : ∀ x ∈ pre, fs.fs_exists (path_join (testSuit.getSourcePath p) x) = false)
    (hn : fs.fs_exists (path_join (testSuit.getSourcePath p) n) = true) :
    search_local_config fs ext testSuit litConfig p st =
      (match search_local_config fs ext testSuit litConfig p.dropLast st with
        | (.error e, st1) => (.error e, st1)
        | (.ok parent, st1) =>
          match ext.loadFromPath parent (path_join (testSuit.getSourcePath p) n) litConfig with
          | none => (.error (.load_failed (path_join (testSuit.getSourcePath p) n)),
              state_after_local_load litConfig (path_join (testSuit.getSourcePath p) n) st1)
          | some loaded => (.ok loaded,
              state_after_local_load litConfig (path_join (testSuit.getSourcePath p) n) st1)) ∧
    (∀ q, (search_local_config fs ext testSuit litConfig q
        (search_local_config fs ext testSuit litConfig p st).2).1 =
      (search_local_config fs ext testSuit litConfig q st).1) := by
  have hc : choose_config_file_from_dir fs (testSuit.getSourcePath p)
      litConfig.localConfigNames = some (path_join (testSuit.getSourcePath p) n) :=
    (choose_eq_some_iff fs _ _ _).mpr ⟨pre, n, post, hsplit, hpre, hn, rfl⟩
  constructor
  · rw [search_local_config_of_ne_nil fs ext testSuit litConfig p st hp]
    rcases search_local_config fs ext testSuit litConfig p.dropLast st with ⟨e | parent, st1⟩
    · rfl
    · simp only [local_config_step, hc]
  · intro q
    exact search_local_config_value fs ext testSuit litConfig q _ _

/-- Claim C20: `search_local_config` on `p` is, as a whole outcome, the left fold that
starts from the suite's configuration and visits the prefixes of `p` in order from the
empty prefix to `p` itself, loading at each the first existing local-override marker of
that prefix's source directory when there is one and leaving the running configuration
unchanged otherwise.  When it returns, the loads it made are exactly those markers, one
per prefix that holds one, in prefix order: no other directory contributes. -/
theorem search_local_config_closed_form (fs : FileSystem) (ext : Collaborators)
    (testSuit : TestSuite) (litConfig : LitConfig) (p : List String) (st : DiscoveryState) :
    search_local_config fs ext testSuit litConfig p st =
      local_config_fold fs ext testSuit litConfig p st ∧
    (∀ c st2, search_local_config fs ext testSuit litConfig p st = (.ok c, st2) →
      st2.loads = st.loads ++ p.inits.filterMap (fun pre =>
        choose_config_file_from_dir fs (testSuit.getSourcePath pre)
          litConfig.localConfigNames)) := by
  refine ⟨search_local_config_eq_fold fs ext testSuit litConfig p st, ?_⟩
  intro c st2 h
  rw [search_local_config_eq_fold] at h
  exact local_config_foldl_loads fs ext testSuit litConfig p.inits _ c st st2 h

/-- Concrete instance for claim C12: with a loader that declares the source root `/src`
and no exec root, the suite found at `/proj` has source root `/src` and exec root
`/proj`. -/
theorem do_search_testsuit_suite_fields_witness :
    ∃ suite, (do_search_testsuit demo_fs declaring_ext (search_testsuit demo_fs declaring_ext)
        ⟨true, ["proj"]⟩ demo_config DiscoveryState.init).1 = .ok (some suite, []) ∧
      suite.name = "/proj/site.cfg" ∧ suite.sourceRoot = ⟨true, ["src"]⟩ ∧
      suite.execRoot = ⟨true, ["proj"]⟩ :=
  have h := do_search_testsuit_suite_fields demo_fs declaring_ext
    (search_testsuit demo_fs declaring_ext) ⟨true, ["proj"]⟩ demo_config DiscoveryState.init
    ⟨true, ["proj", "site.cfg"]⟩ ⟨true, ["proj", "site.cfg"]⟩
    ⟨"/proj/site.cfg", some ⟨true, ["src"]⟩, none, []⟩ (by decide) (by decide) (by decide)
  h.elim fun suite hs =>
    ⟨suite, hs.1, hs.2.1, hs.2.2.2.1 ⟨true, ["src"]⟩ rfl, hs.2.2.2.2.2.2 rfl⟩

/-- Concrete instance for claim C13: the source root `/proj` of the example suite holds no
local-override marker, and the empty path gives the suite's own configuration. -/
theorem search_local_config_empty_witness :
    search_local_config demo_fs demo_ext demo_suite demo_config [] DiscoveryState.init =
      (.ok demo_suite.config, DiscoveryState.init) :=
  (search_local_config_empty demo_fs demo_ext demo_suite demo_config DiscoveryState.init).1
    (by decide)

/-- Concrete instance for claim C14: with `local.cfg` only in `/proj/tests`, the
configuration for `[tests, unit]` is the configuration for `[tests]`, which is the
suite's configuration with `/proj/tests/local.cfg` loaded into it. -/
theorem search_local_config_transparent_witness :
    search_local_config demo_fs demo_ext demo_suite demo_config ["tests", "unit"]
        DiscoveryState.init =
      search_local_config demo_fs demo_ext demo_suite demo_config ["tests"]
        DiscoveryState.init ∧
    (search_local_config demo_fs demo_ext demo_suite demo_config ["tests", "unit"]
        DiscoveryState.init).2.loads = [⟨true, ["proj", "tests", "local.cfg"]⟩] :=
  ⟨search_local_config_transparent demo_fs demo_ext demo_suite demo_config
      ["tests", "unit"] DiscoveryState.init (by decide) (by decide),
    by decide⟩

/-- Concrete instance for claim C15: `/proj/tests` holds `local.cfg`, and the
configuration for `[tests]` is that file loaded into the configuration for `[]`. -/
theorem search_local_config_override_witness :
    (search_local_config demo_fs demo_ext demo_suite demo_config ["tests"]
        DiscoveryState.init).1 =
      .ok { demo_suite.config with
        name := "/proj/tests/local.cfg",
        settings := demo_suite.config.settings ++ [("loaded", "/proj/tests/local.cfg")] } ∧
    (∀ q, (search_local_config demo_fs demo_ext demo_suite demo_config q
        (search_local_config demo_fs demo_ext demo_suite demo_config ["tests"]
          DiscoveryState.init).2).1 =
      (search_local_config demo_fs demo_ext demo_suite demo_config q
        DiscoveryState.init).1) :=
  ⟨by decide,
    (search_local_config_override demo_fs demo_ext demo_suite demo_config ["tests"]
      DiscoveryState.init [] [] "local.cfg" (by decide) (by decide) (by decide)
      (by decide)).2⟩

/-! ## Termination -/

/-- Claim C16: the recursion of `search_testsuit` and `do_search_testsuit` terminates
within the number of segments of the path: with one unit of fuel per segment and one
more, the search never runs out of fuel, and any larger amount of fuel gives the same
outcome.  The only recursive call of `do_search_testsuit` is on the parent of the path,
made only when the parent differs from the path, and that parent has exactly one
segment less.  At a directory holding a marker, at a cached directory and at a path
that is its own parent, no recursive call is needed.  The loop of `get_test_suite`
terminates as well. -/
theorem search_testsuit_terminates (fs : FileSystem) (ext : Collaborators)
    (config : LitConfig) (path : Path) (st : DiscoveryState) :
    (search_testsuit fs ext path config st).1 ≠ .error .out_of_fuel ∧
    (∀ n, path.segs.length < n →
      search_testsuit_fuel fs ext n path config st = search_testsuit fs ext path config st) ∧
    (∀ search1 search2 : Path → LitConfig → DiscoveryState → Outcome TestSuitSearchResult,
      (parent_path path ≠ path →
        search1 (parent_path path) config st = search2 (parent_path path) config st) →
      do_search_testsuit fs ext search1 path config st =
        do_search_testsuit fs ext search2 path config st) ∧
    (parent_path path ≠ path → (parent_path path).segs.length + 1 = path.segs.length) ∧
    ((dir_contains_test_suite fs path config ≠ none ∨
        (∃ k r, fs.canonical path = some k ∧ map_find k st.cache = some r) ∨
        parent_path path = path) →
      search_testsuit_fuel fs ext 1 path config st = search_testsuit fs ext path config st) ∧
    (get_test_suite fs ext path config st).1 ≠ .error .out_of_fuel := by
  refine ⟨search_testsuit_fuel_free fs ext config _ path st (Nat.lt_succ_self _),
    fun n hn => search_testsuit_fuel_enough fs ext config n path st hn,
    fun search1 search2 h => do_search_testsuit_congr fs ext search1 search2 path config st h,
    parent_path_length path, ?_, get_test_suite_fuel_free fs ext config path st⟩
  intro hstop
  rw [search_testsuit_unfold]
  simp only [search_testsuit_fuel]
  rcases hstop with hmark | ⟨k, r, hk, hr⟩ | hroot
  · apply search_testsuit_body_congr
    unfold do_search_testsuit
    cases hd : dir_contains_test_suite fs path config with
    | none => exact absurd hd hmark
    | some m => rfl
  · simp only [search_testsuit_body, hk, hr]
  · apply search_testsuit_body_congr
    apply do_search_testsuit_congr
    intro hp
    exact absurd hroot hp

/-! ## The debug flag -/

/-- Claim C17: let two global configurations differ in the debug flag only (`config` and
`with_debug config b`), and let the external collaborators (default construction and
load) not read that flag.  Then, from the same state, `get_test_suite` returns the same
value or exception under both, leaves the same cache and makes the same loads, and so
does `search_local_config`; and with the debug flag off neither emits a note. -/
theorem debug_flag_observational (fs : FileSystem) (ext : Collaborators)
    (config : LitConfig) (b : Bool) (item : Path) (testSuit : TestSuite)
    (p : List String) (st : DiscoveryState)
    (hdef : ext.fromDefaults (with_debug config b) = ext.fromDefaults config)
    (hload : ∀ c q, ext.loadFromPath c q (with_debug config b)
      = ext.loadFromPath c q config) :
    (get_test_suite fs ext item (with_debug config b) st).1 =
        (get_test_suite fs ext item config st).1 ∧
    (get_test_suite fs ext item (with_debug config b) st).2.cache =
        (get_test_suite fs ext item config st).2.cache ∧
    (get_test_suite fs ext item (with_debug config b) st).2.loads =
        (get_test_suite fs ext item config st).2.loads ∧
    (search_local_config fs ext testSuit (with_debug config b) p st).1 =
        (search_local_config fs ext testSuit config p st).1 ∧
    (search_local_config fs ext testSuit (with_debug config b) p st).2.cache =
        (search_local_config fs ext testSuit config p st).2.cache ∧
    (search_local_config fs ext testSuit (with_debug config b) p st).2.loads =
        (search_local_config fs ext testSuit config p st).2.loads ∧
    (config.debug = false →
      (get_test_suite fs ext item config st).2.notes = st.notes ∧
      (search_local_config fs ext testSuit config p st).2.notes = st.notes) := by
  obtain ⟨h1, h2, h3⟩ := get_test_suite_agree fs ext config b hdef hload item st st rfl
  obtain ⟨h4, h5, h6⟩ := search_local_config_agree fs ext testSuit config b hload p st
  exact ⟨h1.symm, h2.symm, (h3 rfl).symm, h4.symm, h5.symm, h6.symm,
    fun hdebug => ⟨get_test_suite_notes fs ext config hdebug item st,
      search_local_config_notes fs ext testSuit config hdebug p st⟩⟩

/-- Concrete instance for claim C17: in the example tree, resolving the file `case.txt`
with the debug flag on gives the result, cache and loads of the run with the flag off,
and one note; with the flag off there is no note. -/
theorem debug_flag_observational_witness :
    (get_test_suite demo_fs demo_ext ⟨true, ["proj", "tests", "unit", "case.txt"]⟩
        (with_debug demo_config true) DiscoveryState.init).1 =
      (get_test_suite demo_fs demo_ext ⟨true, ["proj", "tests", "unit", "case.txt"]⟩
        demo_config DiscoveryState.init).1 ∧
    (get_test_suite demo_fs demo_ext ⟨true, ["proj", "tests", "unit", "case.txt"]⟩
        (with_debug demo_config true) DiscoveryState.init).2.cache =
      (get_test_suite demo_fs demo_ext ⟨true, ["proj", "tests", "unit", "case.txt"]⟩
        demo_config DiscoveryState.init).2.cache ∧
    (get_test_suite demo_fs demo_ext ⟨true, ["proj", "tests", "unit", "case.txt"]⟩
        (with_debug demo_config true) DiscoveryState.init).2.notes =
      ["loading suite config /proj/site.cfg"] ∧
    (get_test_suite demo_fs demo_ext ⟨true, ["proj", "tests", "unit", "case.txt"]⟩
        demo_config DiscoveryState.init).2.notes = [] :=
  have h := debug_flag_observational demo_fs demo_ext demo_config true
    ⟨true, ["proj", "tests", "unit", "case.txt"]⟩ demo_suite ["tests", "unit"]
    DiscoveryState.init rfl (fun _ _ => rfl)
  ⟨h.1, h.2.1, by decide, (h.2.2.2.2.2.2 rfl).1⟩

/-! ## Idempotence -/

/-- Claim C11: calling `get_test_suite` on `item` twice in succession, the second call
from the state the first one left, gives the same value (same optional suite, same
component list) or the same exception both times, and the second call leaves the cache
as the first one left it.  Appending components to a result never alters a cache entry:
every entry present before a call is the same after it, and when components stripped
from a non-directory item are appended to the result of the search on the base
directory `b`, the entry stored for `b` is that search result without them. -/
theorem get_test_suite_idempotent (fs : FileSystem) (ext : Collaborators)
    (config : LitConfig) (item : Path) (st : DiscoveryState) :
    (get_test_suite fs ext item config (get_test_suite fs ext item config st).2).1 =
        (get_test_suite fs ext item config st).1 ∧
    (get_test_suite fs ext item config (get_test_suite fs ext item config st).2).2.cache =
        (get_test_suite fs ext item config st).2.cache ∧
    (∀ k r, map_find k st.cache = some r →
      map_find k (get_test_suite fs ext item config st).2.cache = some r) ∧
    (∀ i b ts r st1, fs.canonical (path_concat fs.current_path item) = some i →
      i = b.append ts → fs.is_directory b = true →
      (∀ pre, pre ≠ [] → pre <+: ts → fs.is_directory (b.append pre) = false) →
      search_testsuit fs ext b config st = (.ok r, st1) →
      get_test_suite fs ext item config st = (.ok (r.1, r.2 ++ ts), st1) ∧
      ∃ k, fs.canonical b = some k ∧ map_find k st1.cache = some r) := by
  obtain ⟨h1, h2⟩ := get_test_suite_twice fs ext config item st
  refine ⟨h1, h2, ?_, ?_⟩
  · intro k r h
    exact call_state_keeps fs ext config (.get item) st k r h
  · intro i b ts r st1 hitem hi hb hfiles hq
    refine ⟨?_, search_testsuit_ok_cached fs ext config b st st1 r hq⟩
    rw [get_test_suite_of_file fs ext config item i b ts st hitem hi hb hfiles, hq]

/-! ## Cache coherence -/

/-- Claim C18: let the directory `d` be given by its canonical path (`canonical` fixes `d`
and each of its ancestors, as it does for every path `get_test_suite` passes on), and
let the cache be coherent: every entry is the result of the uncached upward search on
its key.  Then the memoized `search_testsuit` on `d` returns what the uncached search
on `d` returns (the same value, or the same exception when a load fails), and the cache
it leaves is coherent again.  The empty cache is coherent, and the uncached search
never runs out of fuel. -/
theorem search_testsuit_coherent (fs : FileSystem) (ext : Collaborators)
    (config : LitConfig) (d : Path) (st : DiscoveryState)
    (hcanon : ∀ pre, pre <+: d.segs →
      fs.canonical ⟨d.absolute, pre⟩ = some ⟨d.absolute, pre⟩)
    (hcoh : cache_coherent fs ext config st.cache) :
    (search_testsuit fs ext d config st).1 = uncached_result fs ext d config ∧
    cache_coherent fs ext config (search_testsuit fs ext d config st).2.cache ∧
    cache_coherent fs ext config [] ∧
    uncached_result fs ext d config ≠ .error .out_of_fuel := by
  obtain ⟨h1, h2⟩ := search_testsuit_coherent_aux fs ext config _ d st
    (Nat.lt_succ_self _) hcanon hcoh
  refine ⟨h1, h2, ?_, ?_⟩
  · intro k r h
    cases h
  · exact uncached_search_fuel_free fs ext config _ d _ (Nat.lt_succ_self _)

/-! ## Path reconstruction -/

/-- Claim C19: let `i` be the canonical form of the queried item, let `get_test_suite`
return a present suite whose configuration declares no test source root (so that the
suite's source root is the directory where the marker was found), and let every cache
entry for `i` or an ancestor of `i`, where present, have this round-trip property
itself (the empty cache does).  Then the suite's source root followed by the returned
components, in order, is exactly `i`: the components are the segments of `i` below the
suite root, none lost, duplicated or reordered. -/
theorem get_test_suite_round_trip (fs : FileSystem) (ext : Collaborators)
    (config : LitConfig) (item i : Path) (suite : TestSuite) (comps : List String)
    (st st1 : DiscoveryState)
    (hitem : fs.canonical (path_concat fs.current_path item) = some i)
    (hcache : ∀ pre k s c, pre <+: i.segs → fs.canonical ⟨i.absolute, pre⟩ = some k →
      map_find k st.cache = some (some s, c) → s.config.testSourceRoot = none →
      s.sourceRoot.append c = ⟨i.absolute, pre⟩)
    (hres : get_test_suite fs ext item config st = (.ok (some suite, comps), st1))
    (hroot : suite.config.testSourceRoot = none) :
    suite.sourceRoot.append comps = i ∧
    suite.sourceRoot.absolute = i.absolute ∧
    i.segs = suite.sourceRoot.segs ++ comps := by
  have key : suite.sourceRoot.append comps = i := by
    simp only [get_test_suite, hitem] at hres
    rcases hs : skip_files fs (i.segs.length + 1) i [] with e | _ | ⟨cur, stripped⟩
    · simp [hs] at hres
    · simp [hs] at hres
    · simp only [hs] at hres
      obtain ⟨h1, h2, h3⟩ := skip_files_rebuild fs _ i [] cur stripped hs
      rcases hq : search_testsuit fs ext cur config st with ⟨e2 | r, st2⟩
      · simp [hq] at hres
      · simp only [hq, foldl_push_back, Prod.mk.injEq, Except.ok.injEq] at hres
        obtain ⟨s2, c2⟩ := r
        simp only [Prod.mk.injEq] at hres
        obtain ⟨⟨hr1, hr2⟩, _⟩ := hres
        subst hr1
        have hrec := search_testsuit_fuel_rebuild fs ext config i st hcache _ cur suite c2
          st2 h2 h3 hq hroot
        rw [← hr2, ← path_append_append, hrec, h1]
        simp [path_append_nil]
  refine ⟨key, ?_, ?_⟩
  · rw [← key]
    rfl
  · rw [← key]
    rfl

/-- Concrete instance for claim C18: in the example tree, from the empty cache, the
memoized search on `/proj/tests/unit` returns what the uncached search returns, the
suite of `/proj` with components `[tests, unit]`, and leaves a coherent cache. -/
theorem search_testsuit_coherent_witness :
    (search_testsuit demo_fs demo_ext ⟨true, ["proj", "tests", "unit"]⟩ demo_config
        DiscoveryState.init).1 =
      uncached_result demo_fs demo_ext ⟨true, ["proj", "tests", "unit"]⟩ demo_config ∧
    cache_coherent demo_fs demo_ext demo_config
      (search_testsuit demo_fs demo_ext ⟨true, ["proj", "tests", "unit"]⟩ demo_config
        DiscoveryState.init).2.cache ∧
    uncached_result demo_fs demo_ext ⟨true, ["proj", "tests", "unit"]⟩ demo_config =
      .ok (some demo_suite, ["tests", "unit"]) :=
  have h := search_testsuit_coherent demo_fs demo_ext demo_config
    ⟨true, ["proj", "tests", "unit"]⟩ DiscoveryState.init
    (forall_prefix_of_inits ["proj", "tests", "unit"]
      (fun pre => demo_fs.canonical ⟨true, pre⟩ = some ⟨true, pre⟩) (by decide))
    (fun _ _ hfind => by cases hfind)
  ⟨h.1, h.2.1, by decide⟩

/-- Concrete instance for claim C19: resolving `/proj/tests/unit/case.txt` gives the suite
rooted at `/proj` and the components `[tests, unit, case.txt]`, which joined give the
item back. -/
theorem get_test_suite_round_trip_witness :
    demo_suite.sourceRoot.append ["tests", "unit", "case.txt"] =
        ⟨true, ["proj", "tests", "unit", "case.txt"]⟩ ∧
      demo_suite.sourceRoot.absolute = true ∧
      ["proj", "tests", "unit", "case.txt"] =
        demo_suite.sourceRoot.segs ++ ["tests", "unit", "case.txt"] :=
  get_test_suite_round_trip demo_fs demo_ext demo_config
    ⟨true, ["proj", "tests", "unit", "case.txt"]⟩
    ⟨true, ["proj", "tests", "unit", "case.txt"]⟩ demo_suite ["tests", "unit", "case.txt"]
    DiscoveryState.init
    (get_test_suite demo_fs demo_ext ⟨true, ["proj", "tests", "unit", "case.txt"]⟩
      demo_config DiscoveryState.init).2
    (by decide) (fun _ _ _ _ _ _ hfind => by cases hfind) (by decide) (by decide)

/-! ## Site-marker priority without a rewrite table -/

/-- Claim C5, the code at the failing input: `/proj` holds both the site marker
`site.cfg` and the suite marker `suite.cfg`, and `dir_contains_test_suite` returns the
site marker, as the claim says.  But when the parameter `config_map` holds an empty
`std::any` (no rewrite table supplied), the one load `do_search_testsuit` makes for
`/proj` is that of the empty path: the configuration of the suite is what the empty path
loads, not the site marker's.  With a table supplied the site marker is loaded. -/
theorem do_search_testsuit_site_marker_not_loaded :
    demo_fs.fs_exists ⟨true, ["proj", "site.cfg"]⟩ = true ∧
      demo_fs.fs_exists ⟨true, ["proj", "suite.cfg"]⟩ = true ∧
      dir_contains_test_suite demo_fs ⟨true, ["proj"]⟩ demo_config_no_table
        = some ⟨true, ["proj", "site.cfg"]⟩ ∧
      (do_search_testsuit demo_fs demo_ext (search_testsuit demo_fs demo_ext)
        ⟨true, ["proj"]⟩ demo_config_no_table DiscoveryState.init).2.loads = [Path.empty] ∧
      (do_search_testsuit demo_fs demo_ext (search_testsuit demo_fs demo_ext)
        ⟨true, ["proj"]⟩ demo_config_no_table DiscoveryState.init).2.loads
          ≠ [⟨true, ["proj", "site.cfg"]⟩] ∧
      (do_search_testsuit demo_fs demo_ext (search_testsuit demo_fs demo_ext)
        ⟨true, ["proj"]⟩ demo_config_no_table DiscoveryState.init).1
          = .ok (some (suite_at ⟨true, ["proj"]⟩ (demo_loaded Path.empty)), []) ∧
      (do_search_testsuit demo_fs demo_ext (search_testsuit demo_fs demo_ext)
        ⟨true, ["proj"]⟩ demo_config DiscoveryState.init).2.loads
          = [⟨true, ["proj", "site.cfg"]⟩] := by
  decide

end Discovery
